import Mathlib

/-!
Verification of the profile-statistics aggregator (Bitbucket/Github collectors
plus the combine step).  The Python sources in `app/services/bitbucket.py`,
`app/services/github.py` and `app/tools/combine.py` are shallowly embedded:
parsed JSON bodies become the `JValue` type, the HTTP transport becomes an
explicit function from URLs to structured responses or failures, mutable
collector objects become explicit state records threaded through every method,
and Python exceptions become an explicit error channel.
-/

set_option maxHeartbeats 1000000
set_option maxRecDepth 8192

/-- Python exceptions that can flow through the collectors.  `fuelOut` is a
modelling artifact marking that the explicit fuel of a loop ran out; it is
raised by no embedded operation on inputs whose page chains terminate. -/
inductive Exc where
  | valueError
  | connReset
  | keyError
  | typeError
  | attrError
  | indexError
  | fuelOut
deriving DecidableEq, Repr

/-- Parsed JSON values as returned by `res.json()`.  Numbers are modelled as
integers (no claim involves fractional values). -/
inductive JValue where
  | null
  | bool (b : Bool)
  | num (n : Int)
  | str (s : String)
  | arr (xs : List JValue)
  | obj (fields : List (String × JValue))
deriving Repr

mutual

/-- Structural equality of JSON values (Python `==` on parsed JSON trees). -/
def JValue.beq : JValue → JValue → Bool
  | .null, .null => true
  | .bool a, .bool b => a == b
  | .num a, .num b => a == b
  | .str a, .str b => a == b
  | .arr as, .arr bs => JValue.beqList as bs
  | .obj afs, .obj bfs => JValue.beqFields afs bfs
  | _, _ => false

def JValue.beqList : List JValue → List JValue → Bool
  | [], [] => true
  | a :: as, b :: bs => JValue.beq a b && JValue.beqList as bs
  | _, _ => false

def JValue.beqFields : List (String × JValue) → List (String × JValue) → Bool
  | [], [] => true
  | (k₁, v₁) :: as, (k₂, v₂) :: bs =>
      k₁ == k₂ && JValue.beq v₁ v₂ && JValue.beqFields as bs
  | _, _ => false

end

mutual

theorem JValue.beq_iff : ∀ a b : JValue, JValue.beq a b = true ↔ a = b
  | .null, .null => by simp [JValue.beq]
  | .bool a, .bool b => by simp [JValue.beq]
  | .num a, .num b => by simp [JValue.beq]
  | .str a, .str b => by simp [JValue.beq]
  | .arr as, .arr bs => by simp [JValue.beq, JValue.beqList_iff as bs]
  | .obj afs, .obj bfs => by simp [JValue.beq, JValue.beqFields_iff afs bfs]
  | .null, .bool _ | .null, .num _ | .null, .str _ | .null, .arr _ | .null, .obj _
  | .bool _, .null | .bool _, .num _ | .bool _, .str _ | .bool _, .arr _ | .bool _, .obj _
  | .num _, .null | .num _, .bool _ | .num _, .str _ | .num _, .arr _ | .num _, .obj _
  | .str _, .null | .str _, .bool _ | .str _, .num _ | .str _, .arr _ | .str _, .obj _
  | .arr _, .null | .arr _, .bool _ | .arr _, .num _ | .arr _, .str _ | .arr _, .obj _
  | .obj _, .null | .obj _, .bool _ | .obj _, .num _ | .obj _, .str _ | .obj _, .arr _ => by
      simp [JValue.beq]

theorem JValue.beqList_iff : ∀ as bs : List JValue, JValue.beqList as bs = true ↔ as = bs
  | [], [] => by simp [JValue.beqList]
  | [], _ :: _ => by simp [JValue.beqList]
  | _ :: _, [] => by simp [JValue.beqList]
  | a :: as, b :: bs => by
      simp [JValue.beqList, JValue.beq_iff a b, JValue.beqList_iff as bs]

theorem JValue.beqFields_iff :
    ∀ as bs : List (String × JValue), JValue.beqFields as bs = true ↔ as = bs
  | [], [] => by simp [JValue.beqFields]
  | [], _ :: _ => by simp [JValue.beqFields]
  | _ :: _, [] => by simp [JValue.beqFields]
  | (k₁, v₁) :: as, (k₂, v₂) :: bs => by
      simp [JValue.beqFields, JValue.beq_iff v₁ v₂, JValue.beqFields_iff as bs,
        and_assoc]

end

instance : DecidableEq JValue := fun a b =>
  decidable_of_iff (JValue.beq a b = true) (JValue.beq_iff a b)

instance {ε α : Type} [DecidableEq ε] [DecidableEq α] :
    DecidableEq (Except ε α) := fun a b =>
  match a, b with
  | .ok x, .ok y => decidable_of_iff (x = y) (by simp)
  | .error e, .error f => decidable_of_iff (e = f) (by simp)
  | .ok _, .error _ => isFalse (by simp)
  | .error _, .ok _ => isFalse (by simp)

/-- First binding of a key in a JSON object (keys of parsed JSON objects are
distinct). -/
def lookupField : List (String × JValue) → String → Option JValue
  | [], _ => none
  | (k, v) :: rest, key => if k = key then some v else lookupField rest key

/-- Python truthiness of a parsed JSON value. -/
def truthy : JValue → Bool
  | .null => false
  | .bool b => b
  | .num n => n != 0
  | .str s => !s.isEmpty
  | .arr xs => !xs.isEmpty
  | .obj fs => !fs.isEmpty

/-- Python `len` on a parsed JSON value (`TypeError` on unsized values). -/
def pyLen : JValue → Except Exc Nat
  | .arr xs => .ok xs.length
  | .str s => .ok s.length
  | .obj fs => .ok fs.length
  | _ => .error .typeError

/-- Python iteration over a parsed JSON value, as used by `list.__iadd__` and
`set.update`: lists yield elements, strings yield one-character strings,
dicts yield their keys; other values raise `TypeError`. -/
def pyIter : JValue → Except Exc (List JValue)
  | .arr xs => .ok xs
  | .str s => .ok (s.data.map fun c => .str c.toString)
  | .obj fs => .ok (fs.map fun p => .str p.1)
  | _ => .error .typeError

/-- Python subscription `d[k]`: `KeyError` when the key is absent,
`TypeError` when the value is not a dict. -/
def getItemE : JValue → String → Except Exc JValue
  | .obj fs, k =>
      match lookupField fs k with
      | some v => .ok v
      | none => .error .keyError
  | _, _ => .error .typeError

/-- Python `d.get(k)` (`None` default); non-dict receivers raise
`AttributeError`. -/
def pyGetD : JValue → String → Except Exc JValue
  | .obj fs, k => .ok ((lookupField fs k).getD .null)
  | _, _ => .error .attrError

/-- Python `acc += v` for an integer accumulator: numbers add, booleans count
as 0/1, anything else raises `TypeError`. -/
def pyAddInt (acc : Int) : JValue → Except Exc Int
  | .num n => .ok (acc + n)
  | .bool b => .ok (acc + if b then 1 else 0)
  | _ => .error .typeError

/-- Python `set.add`, with the set determinised as an insertion-ordered
duplicate-free list. -/
def setAdd {α : Type} [DecidableEq α] (xs : List α) (x : α) : List α :=
  if x ∈ xs then xs else xs ++ [x]

/-- Python `set.update` over an iterable. -/
def setAddAll {α : Type} [DecidableEq α] (xs : List α) (ys : List α) : List α :=
  ys.foldl setAdd xs

/-- Python `str.lower()` (ASCII), structurally, so that concrete runs reduce
definitionally. -/
def lowerStr (s : String) : String := String.mk (s.data.map Char.toLower)

/-- Python `str()` of a parsed JSON value, used only to embed repository names
into URLs.  The rendering of composite values is not modelled beyond a
placeholder; no claim exercises a non-string repository name. -/
def pyStr : JValue → String
  | .str s => s
  | .num n => toString n
  | .bool b => if b then "True" else "False"
  | .null => "None"
  | .arr _ => "<list>"
  | .obj _ => "<dict>"

namespace Bitbucket

/-- Outcome of `requests.get` as seen through `Bitbucket.make_api_call`:
a parsed body on success, `ValueError` when the server answers but rejects the
URL (`res.ok` false), `ConnectionResetError` when no connection is made. -/
inductive Fetch where
  | ok (body : JValue)
  | invalid
  | connFail
deriving DecidableEq, Repr

/-- A deterministic transport: what `make_api_call` yields for each URL. -/
def Transport : Type := String → Fetch

/-- Mutable state of a `Bitbucket` instance.  The `repos` dict has exactly the
keys `'forked'` and `'unforked'`, modelled as the two integer fields; `calls`
is ghost instrumentation recording each URL actually fetched, in order. -/
structure State where
  followers : Int
  languages : List JValue
  forked : Int
  unforked : Int
  watchers : Int
  calls : List String
deriving Repr, DecidableEq

/-- State of a freshly constructed `Bitbucket(org)` (the organisation name is
passed separately to each operation). -/
def initState : State :=
  { followers := 0, languages := [], forked := 0, unforked := 0, watchers := 0,
    calls := [] }

def State.addCalls (s : State) (tr : List String) : State :=
  { s with calls := s.calls ++ tr }

/-- Base URL for API version `'2.0'` (the default). -/
def baseUrl : String := "https://api.bitbucket.org/2.0"

def reposUrl (org : String) : String :=
  baseUrl ++ "/repositories/" ++ org ++ "?pagelen=100"

def followersUrl (org : String) : String :=
  baseUrl ++ "/teams/" ++ org ++ "/followers?pagelen=100"

/-- Python `str.split()` (no separator): split on whitespace runs, dropping
empty pieces.  Structural, so that concrete runs reduce definitionally. -/
def splitWsAux : List Char → List Char → List (List Char)
  | [], cur => if cur.isEmpty then [] else [cur.reverse]
  | c :: cs, cur =>
      if c.isWhitespace then
        if cur.isEmpty then splitWsAux cs []
        else cur.reverse :: splitWsAux cs []
      else splitWsAux cs (c :: cur)

/-- `'-'.join(repo.split())`: whitespace runs collapse to single hyphens. -/
def normalizeName (name : String) : String :=
  String.intercalate "-" ((splitWsAux name.data []).map String.mk)

def watchersUrl (org name : String) : String :=
  baseUrl ++ "/repositories/" ++ org ++ "/" ++ normalizeName name
    ++ "/watchers?pagelen=100"

/-- Accumulator of `get_all_results`: a record list in data mode, a running
count otherwise. -/
inductive PagAcc where
  | recs (xs : List JValue)
  | cnt (n : Nat)
deriving DecidableEq, Repr

/-- `paginated_results += ...`: list concatenation or integer addition;
mixed operands would be a Python `TypeError` (unreachable, since the `data`
flag fixes the shape). -/
def PagAcc.add : PagAcc → PagAcc → Except Exc PagAcc
  | .recs a, .recs b => .ok (.recs (a ++ b))
  | .cnt a, .cnt b => .ok (.cnt (a + b))
  | _, _ => .error .typeError

/-- `Bitbucket.get_result`: the page's `'values'` in data mode (iterated, as
the caller's `+=` does) or their number; a missing `'values'` key is caught
(`except KeyError`) and defaults to `[]` / `0`; subscripting a non-dict page
raises `TypeError` (uncaught in the source). -/
def get_result (page_results : JValue) (data : Bool) : Except Exc PagAcc :=
  match page_results with
  | .obj fs =>
      match lookupField fs "values" with
      | some v =>
          if data then (pyIter v).map PagAcc.recs
          else (pyLen v).map PagAcc.cnt
      | none => .ok (if data then .recs [] else .cnt 0)
  | _ => .error .typeError

/-- The `while results_remaining` loop of `get_all_results`.  Each step fetches
`link`, accumulates via `get_result`, and follows the page's `'next'` field
while it is truthy.  The surrounding `except ValueError` of the source (which
returns whatever accumulated) is folded into the `invalid` branch; all other
exceptions propagate.  A non-string `link` makes `requests.get` raise a
`RequestException`, which `make_api_call` converts to `ConnectionResetError`.
The second component is the ghost list of URLs fetched. -/
def getAllLoop (t : Transport) (data : Bool) :
    Nat → JValue → PagAcc → Except Exc PagAcc × List String
  | 0, _, _ => (.error .fuelOut, [])
  | fuel + 1, link, acc =>
    match link with
    | .str u =>
      match t u with
      | .invalid => (.ok acc, [u])
      | .connFail => (.error .connReset, [u])
      | .ok page =>
        match get_result page data with
        | .error e => (.error e, [u])
        | .ok gr =>
          match PagAcc.add acc gr with
          | .error e => (.error e, [u])
          | .ok acc' =>
            match page with
            | .obj fs =>
              let nxt := (lookupField fs "next").getD .null
              if truthy nxt then
                let r := getAllLoop t data fuel nxt acc'
                (r.1, u :: r.2)
              else (.ok acc', [u])
            | _ => (.error .typeError, [u])
    | _ => (.error .connReset, [])

/-- `Bitbucket.get_all_results(link, data)`. -/
def get_all_results (t : Transport) (fuel : Nat) (link : String) (data : Bool) :
    Except Exc PagAcc × List String :=
  getAllLoop t data fuel (.str link) (if data then .recs [] else .cnt 0)

/-- `Bitbucket.update_languages`: add the repo's language (possibly `None`)
to the language set. -/
def update_languages (language : JValue) (s : State) : State :=
  { s with languages := setAdd s.languages language }

/-- `Bitbucket.update_repo_count`: fetch the fork listing; a truthy `'values'`
counts as forked, a falsy one as unforked; `ValueError` (invalid URL) is
caught and counts as unforked; a missing `'values'` key raises an uncaught
`KeyError`. -/
def update_repo_count (t : Transport) (link : JValue) (s : State) :
    Option Exc × State :=
  match link with
  | .str u =>
    match t u with
    | .invalid => (none, { s.addCalls [u] with unforked := s.unforked + 1 })
    | .connFail => (some .connReset, s.addCalls [u])
    | .ok fork =>
      match getItemE fork "values" with
      | .error e => (some e, s.addCalls [u])
      | .ok v =>
          if truthy v then (none, { s.addCalls [u] with forked := s.forked + 1 })
          else (none, { s.addCalls [u] with unforked := s.unforked + 1 })
  | _ => (some .connReset, s)

/-- `Bitbucket.update_watchers_count`: count-mode pagination of the repo's
watchers endpoint; the count is added to the accumulator.  A non-string name
would fail in `'-'.join(repo.split())` with `AttributeError`. -/
def update_watchers_count (t : Transport) (fuel : Nat) (org : String)
    (name : JValue) (s : State) : Option Exc × State :=
  match name with
  | .str n =>
    let r := get_all_results t fuel (watchersUrl org n) false
    let s' := s.addCalls r.2
    match r.1 with
    | .error e => (some e, s')
    | .ok (.cnt k) => (none, { s' with watchers := s'.watchers + k })
    | .ok (.recs _) => (some .typeError, s')
  | _ => (some .attrError, s)

/-- `Bitbucket.get_followers_count`: count-mode pagination of the followers
endpoint. -/
def get_followers_count (t : Transport) (fuel : Nat) (org : String)
    (s : State) : Option Exc × State :=
  let r := get_all_results t fuel (followersUrl org) false
  let s' := s.addCalls r.2
  match r.1 with
  | .error e => (some e, s')
  | .ok (.cnt k) => (none, { s' with followers := s'.followers + k })
  | .ok (.recs _) => (some .typeError, s')

/-- The body of the `for repo in repos` loop of `Bitbucket.process_repos`:
`repo['language']`, `repo['links']['forks']['href']` and `repo['name']` are
plain subscriptions whose `KeyError` on a missing field is caught nowhere. -/
def processList (t : Transport) (fuel : Nat) (org : String) :
    List JValue → State → Option Exc × State
  | [], s => (none, s)
  | repo :: rest, s =>
    match getItemE repo "language" with
    | .error e => (some e, s)
    | .ok lang =>
      let s₁ := update_languages lang s
      match getItemE repo "links" with
      | .error e => (some e, s₁)
      | .ok links =>
        match getItemE links "forks" with
        | .error e => (some e, s₁)
        | .ok forks =>
          match getItemE forks "href" with
          | .error e => (some e, s₁)
          | .ok href =>
            match update_repo_count t href s₁ with
            | (some e, s₂) => (some e, s₂)
            | (none, s₂) =>
              match getItemE repo "name" with
              | .error e => (some e, s₂)
              | .ok name =>
                match update_watchers_count t fuel org name s₂ with
                | (some e, s₃) => (some e, s₃)
                | (none, s₃) => processList t fuel org rest s₃

/-- `Bitbucket.process_repos`. -/
def process_repos (t : Transport) (fuel : Nat) (org : String) (s : State) :
    Option Exc × State :=
  let r := get_all_results t fuel (reposUrl org) true
  let s' := s.addCalls r.2
  match r.1 with
  | .error e => (some e, s')
  | .ok (.recs repos) =>
    match processList t fuel org repos s' with
    | (some e, s₂) => (some e, s₂)
    | (none, s₂) => get_followers_count t fuel org s₂
  | .ok (.cnt _) => (some .typeError, s')

/-- The per-platform `repos` dict: exactly the keys `'forked'` and
`'unforked'`, in insertion order. -/
structure Repos where
  forked : Int
  unforked : Int
deriving DecidableEq, Repr

/-- The `repos` dict rendered as the association list it is in Python. -/
def Repos.dict (r : Repos) : List (String × Int) :=
  [("forked", r.forked), ("unforked", r.unforked)]

/-- The dict returned by `Bitbucket.make_response`. -/
structure Result where
  followers : Int
  languages : List JValue
  repos : Repos
  watchers : Int
deriving DecidableEq, Repr

def buildResult (s : State) : Result :=
  { followers := s.followers, languages := s.languages,
    repos := { forked := s.forked, unforked := s.unforked },
    watchers := s.watchers }

/-- `Bitbucket.make_response`: run `process_repos`, swallowing only
`ConnectionResetError`, then package the accumulator fields. -/
def make_response (t : Transport) (fuel : Nat) (org : String) (s : State) :
    Except Exc Result × State :=
  match process_repos t fuel org s with
  | (none, s') => (.ok (buildResult s'), s')
  | (some .connReset, s') => (.ok (buildResult s'), s')
  | (some e, s') => (.error e, s')

end Bitbucket

namespace Github

/-- The literal pattern `page=` of the regex `page=(.*)>;`. -/
def pagePat : List Char := ['p', 'a', 'g', 'e', '=']

/-- The closing literal `>;` of the regex `page=(.*)>;`. -/
def closerPat : List Char := ['>', ';']

/-- Split a string at the FIRST occurrence of `pat`:
`some (a, b)` with `s = a ++ pat ++ b` and no earlier occurrence. -/
def splitFirstPat (pat : List Char) : List Char → Option (List Char × List Char)
  | [] => if pat.isEmpty then some ([], []) else none
  | c :: cs =>
      if pat.isPrefixOf (c :: cs) then some ([], (c :: cs).drop pat.length)
      else (splitFirstPat pat cs).map fun p => (c :: p.1, p.2)

/-- Split a string at the LAST occurrence of `pat`. -/
def splitLastPat (pat : List Char) : List Char → Option (List Char × List Char)
  | [] => none
  | c :: cs =>
      match splitLastPat pat cs with
      | some (a, b) => some (c :: a, b)
      | none =>
          if pat.isPrefixOf (c :: cs) then some ([], (c :: cs).drop pat.length)
          else none

/-- Longest prefix without a newline: the region in which `.*` may match. -/
def takeUntilNL (s : List Char) : List Char := s.takeWhile (· ≠ '\n')

/-- The remainder from the first newline on. -/
def dropFromNL (s : List Char) : List Char := s.dropWhile (· ≠ '\n')

/-- `re.findall('page=(.*)>;', s)`: scan left to right; a match starts at the
earliest `page=`, its greedy `.*` group runs to the LAST `>;` that follows
with no intervening newline, and scanning resumes after that `>;`.  When a
`page=` has no `>;` after it (before a newline), the engine advances; since
`page=` cannot overlap itself (it has no nontrivial border), the next
candidate start lies beyond it, i.e. in the remainder `b`. -/
def reFindallAux : Nat → List Char → List (List Char)
  | 0, _ => []
  | fuel + 1, s =>
    match splitFirstPat pagePat s with
    | none => []
    | some (_, b) =>
      let reg := takeUntilNL b
      match splitLastPat closerPat reg with
      | none => reFindallAux fuel b
      | some (g, rest) => g :: reFindallAux fuel (rest ++ dropFromNL b)

def reFindall (s : List Char) : List (List Char) :=
  reFindallAux (s.length + 1) s

/-- Python `xs[-1]`: last element, `IndexError` on an empty list. -/
def pyLastIdx {α : Type} (l : List α) : Except Exc α :=
  match l.getLast? with
  | some a => .ok a
  | none => .error .indexError

/-- Python `s.split(pat)` (non-overlapping, leftmost-first). -/
def pySplit (pat : List Char) : Nat → List Char → List (List Char)
  | 0, s => [s]
  | fuel + 1, s =>
    match splitFirstPat pat s with
    | none => [s]
    | some (a, b) => a :: pySplit pat fuel b

/-- Characters stripped by Python `str.strip()` (and ignored by `int()`). -/
def isPySpace (c : Char) : Bool :=
  c = ' ' || c = '\t' || c = '\n' || c = '\r' || c = '\x0b' || c = '\x0c' 

/-- ASCII decimal digit. -/
def isDecDigit (c : Char) : Bool := '0' ≤ c && c ≤ '9'

/-- Numeric value of a digit string. -/
def decVal (ds : List Char) : Int :=
  ds.foldl (fun a c => a * 10 + ((c.toNat - '0'.toNat : Nat) : Int)) 0

/-- Leading sign of a stripped numeral, as `int()` reads it. -/
def pySign : List Char → Bool × List Char
  | '-' :: rest => (true, rest)
  | '+' :: rest => (false, rest)
  | rest => (false, rest)

/-- Python `int(s)`: strip whitespace, optional sign, then a nonempty run of
decimal digits; anything else raises `ValueError`. -/
def pyInt (s : String) : Except Exc Int :=
  let t := (s.data.dropWhile isPySpace).reverse.dropWhile isPySpace |>.reverse
  let sd := pySign t
  if sd.2 ≠ [] ∧ sd.2.all isDecDigit then
    .ok (if sd.1 then -decVal sd.2 else decVal sd.2)
  else .error .valueError

/-- `int(re.findall('page=(.*)>;', link_header)[-1].split('page=')[-1])`:
the expression shared verbatim by `Github.get_total_pages` and
`Github.get_followers_count`. -/
def parseLastPage (linkHeader : String) : Except Exc Int := do
  let g ← pyLastIdx (reFindall linkHeader.data)
  let seg ← pyLastIdx (pySplit pagePat (g.length + 1) g)
  pyInt (String.mk seg)

/-- `Github.get_total_pages`. -/
def get_total_pages (linkHeader : String) : Except Exc Int :=
  parseLastPage linkHeader

end Github

namespace Github

/-- Outcome of `requests.get` as seen through `Github.make_api_call`: the dict
`{'results': res.json(), 'headers': res.headers}` on success, else the same
two failure kinds as for Bitbucket.  The constant `accept` header sent by
`update_languages` does not influence the mocked transport and is omitted. -/
inductive GFetch where
  | ok (results : JValue) (headers : List (String × String))
  | invalid
  | connFail
deriving DecidableEq

def GTransport : Type := String → GFetch

/-- `headers.get(k)` on a `requests` `CaseInsensitiveDict`. -/
def headerGet (hdrs : List (String × String)) (k : String) : Option String :=
  (hdrs.find? fun p => lowerStr p.1 = lowerStr k).map Prod.snd

/-- `headers.get('link')` used as a condition: the header must be present and
truthy (a nonempty string). -/
def headerLink (hdrs : List (String × String)) : Option String :=
  match headerGet hdrs "link" with
  | some h => if h = "" then none else some h
  | none => none

/-- Mutable state of a `Github` instance; `calls` is ghost instrumentation
recording each URL fetched, in order. -/
structure State where
  followers : Int
  languages : List String
  forked : Int
  unforked : Int
  topics : List JValue
  watchers : Int
  calls : List String
deriving Repr, DecidableEq

/-- State of a freshly constructed `Github(org)`. -/
def initState : State :=
  { followers := 0, languages := [], forked := 0, unforked := 0, topics := [],
    watchers := 0, calls := [] }

def State.addCalls (s : State) (tr : List String) : State :=
  { s with calls := s.calls ++ tr }

def baseUrl : String := "https://api.github.com"

def reposUrl (org : String) : String :=
  baseUrl ++ "/orgs/" ++ org ++ "/repos?per_page=100"

def followersUrl (org : String) : String :=
  baseUrl ++ "/users/" ++ org ++ "/followers?per_page=1"

def languagesUrl (org : String) (name : JValue) : String :=
  baseUrl ++ "/repos/" ++ org ++ "/" ++ pyStr name ++ "/languages"

/-- `f'{link}&page={page}'`. -/
def pageUrl (link : String) (page : Int) : String :=
  link ++ "&page=" ++ toString page

/-- Python `range(a, b)` over integers. -/
def pyRange (a b : Int) : List Int :=
  (List.range (b - a).toNat).map fun i => a + i

/-- The `for page in range(2, total_pages + 1)` loop of `get_all_repos`:
fetch `f'{link}&page={page}'`, extend `results` with `next_data['results']`;
an invalid fetch hits the surrounding `except ValueError`, which returns the
results accumulated so far.  The final component accumulates the ghost trace. -/
def ghPagesLoop (t : GTransport) (link : String) :
    List Int → List JValue → List String → Except Exc (List JValue) × List String
  | [], acc, tr => (.ok acc, tr)
  | p :: ps, acc, tr =>
    let u := pageUrl link p
    match t u with
    | .invalid => (.ok acc, tr ++ [u])
    | .connFail => (.error .connReset, tr ++ [u])
    | .ok body _ =>
      match pyIter body with
      | .error e => (.error e, tr ++ [u])
      | .ok xs => ghPagesLoop t link ps (acc ++ xs) (tr ++ [u])

/-- `Github.get_all_repos`: one fetch; if a truthy `link` header is present,
parse the last page number and fetch pages `2..N`; `ValueError` anywhere
(including from `int()` inside `get_total_pages`) returns what accumulated. -/
def get_all_repos (t : GTransport) (link : String) :
    Except Exc (List JValue) × List String :=
  match t link with
  | .invalid => (.ok [], [link])
  | .connFail => (.error .connReset, [link])
  | .ok body hdrs =>
    match pyIter body with
    | .error e => (.error e, [link])
    | .ok r1 =>
      match headerLink hdrs with
      | none => (.ok r1, [link])
      | some h =>
        match get_total_pages h with
        | .error .valueError => (.ok r1, [link])
        | .error e => (.error e, [link])
        | .ok n => ghPagesLoop t link (pyRange 2 (n + 1)) r1 [link]

/-- `Github.update_languages`: fetch the repo's languages endpoint, lowercase
the keys of the returned dict and union them into the language set;
`ValueError` (invalid URL) is swallowed; `.keys()` on a non-dict body raises
`AttributeError` (uncaught). -/
def update_languages (t : GTransport) (org : String) (name : JValue)
    (s : State) : Option Exc × State :=
  let u := languagesUrl org name
  match t u with
  | .invalid => (none, s.addCalls [u])
  | .connFail => (some .connReset, s.addCalls [u])
  | .ok body _ =>
    match body with
    | .obj fs =>
        (none, { s.addCalls [u] with
                  languages := setAddAll s.languages (fs.map fun p => lowerStr p.1) })
    | _ => (some .attrError, s.addCalls [u])

/-- `Github.update_repo_count`: the record's `fork` flag decides directly. -/
def update_repo_count (forked : JValue) (s : State) : State :=
  if truthy forked then { s with forked := s.forked + 1 }
  else { s with unforked := s.unforked + 1 }

/-- `Github.update_topics`: union a truthy topics value into the topic set. -/
def update_topics (topics : JValue) (s : State) : Option Exc × State :=
  if truthy topics then
    match pyIter topics with
    | .error e => (some e, s)
    | .ok xs => (none, { s with topics := setAddAll s.topics xs })
  else (none, s)

/-- `Github.update_watchers_count`: add the record's watcher count. -/
def update_watchers_count (watchers : JValue) (s : State) : Option Exc × State :=
  match pyAddInt s.watchers watchers with
  | .error e => (some e, s)
  | .ok w => (none, { s with watchers := w })

/-- `Github.get_followers_count`: one fetch of the followers endpoint with
`per_page=1`; when the response has (truthy) headers containing a truthy
`link` header, the inline regex chain yields the follower count (the total
page count); otherwise `len(data['results'])` is used.  Only `ValueError`
(e.g. from `int()`) is caught. -/
def get_followers_count (t : GTransport) (org : String) (s : State) :
    Option Exc × State :=
  let u := followersUrl org
  match t u with
  | .invalid => (none, s.addCalls [u])
  | .connFail => (some .connReset, s.addCalls [u])
  | .ok body hdrs =>
    let s' := s.addCalls [u]
    match (if hdrs.isEmpty then none else headerLink hdrs) with
    | some h =>
      match parseLastPage h with
      | .error .valueError => (none, s')
      | .error e => (some e, s')
      | .ok n => (none, { s' with followers := s'.followers + n })
    | none =>
      match pyLen body with
      | .error e => (some e, s')
      | .ok k => (none, { s' with followers := s'.followers + k })

/-- The body of the `for repo in results` loop of `Github.process_repos`:
`repo['name']`, `repo['fork']` and `repo['watchers']` are plain subscriptions
(uncaught `KeyError` on absence); only `topics` uses `.get`. -/
def processList (t : GTransport) (org : String) :
    List JValue → State → Option Exc × State
  | [], s => (none, s)
  | repo :: rest, s =>
    match getItemE repo "name" with
    | .error e => (some e, s)
    | .ok name =>
      match update_languages t org name s with
      | (some e, s₁) => (some e, s₁)
      | (none, s₁) =>
        match getItemE repo "fork" with
        | .error e => (some e, s₁)
        | .ok fork =>
          let s₂ := update_repo_count fork s₁
          match pyGetD repo "topics" with
          | .error e => (some e, s₂)
          | .ok topics =>
            match update_topics topics s₂ with
            | (some e, s₃) => (some e, s₃)
            | (none, s₃) =>
              match getItemE repo "watchers" with
              | .error e => (some e, s₃)
              | .ok w =>
                match update_watchers_count w s₃ with
                | (some e, s₄) => (some e, s₄)
                | (none, s₄) => processList t org rest s₄

/-- `Github.process_repos`. -/
def process_repos (t : GTransport) (org : String) (s : State) :
    Option Exc × State :=
  let r := get_all_repos t (reposUrl org)
  let s' := s.addCalls r.2
  match r.1 with
  | .error e => (some e, s')
  | .ok repos =>
    match processList t org repos s' with
    | (some e, s₂) => (some e, s₂)
    | (none, s₂) => get_followers_count t org s₂

/-- The dict returned by `Github.make_response`; `topics` is
`list(self.topics)`. -/
structure Result where
  followers : Int
  languages : List String
  repos : Bitbucket.Repos
  topics : List JValue
  watchers : Int
deriving DecidableEq, Repr

def buildResult (s : State) : Result :=
  { followers := s.followers, languages := s.languages,
    repos := { forked := s.forked, unforked := s.unforked },
    topics := s.topics, watchers := s.watchers }

/-- `Github.make_response`: run `process_repos`, swallowing only
`ConnectionResetError`, then package the accumulator fields. -/
def make_response (t : GTransport) (org : String) (s : State) :
    Except Exc Result × State :=
  match process_repos t org s with
  | (none, s') => (.ok (buildResult s'), s')
  | (some .connReset, s') => (.ok (buildResult s'), s')
  | (some e, s') => (.error e, s')

end Github

/-- The `repos` dict of the merged result: keys `'forked'`, `'unforked'`,
`'count'` in insertion order. -/
structure Repos3 where
  forked : Int
  unforked : Int
  count : Int
deriving DecidableEq, Repr

def Repos3.dict (r : Repos3) : List (String × Int) :=
  [("forked", r.forked), ("unforked", r.unforked), ("count", r.count)]

/-- The dict returned by `combine`. -/
structure CombResult where
  followers : Int
  languages_list : List JValue
  languages_count : Int
  topics_list : List JValue
  topics_count : Int
  repos : Repos3
  watchers : Int
deriving DecidableEq, Repr

/-- `combine(bitbucket, github)` from `app/tools/combine.py`: sum `followers`
and `watchers`, union the language sets (Github languages are strings, so they
enter the union as string values), copy the topics list and take its length,
and sum the repo counts field-wise with `count` as the sum of the two result
fields just written. -/
def combine (bitbucket : Bitbucket.Result) (github : Github.Result) :
    CombResult :=
  let followers := bitbucket.followers + github.followers
  let languages :=
    setAddAll (setAddAll [] bitbucket.languages) (github.languages.map .str)
  let languages_list := languages
  let languages_count := (languages_list.length : Int)
  let topics_list := github.topics
  let topics_count := (github.topics.length : Int)
  let forked := bitbucket.repos.forked + github.repos.forked
  let unforked := bitbucket.repos.unforked + github.repos.unforked
  { followers := followers,
    languages_list := languages_list,
    languages_count := languages_count,
    topics_list := topics_list,
    topics_count := topics_count,
    repos := { forked := forked, unforked := unforked, count := forked + unforked },
    watchers := bitbucket.watchers + github.watchers }

namespace HeapModel

/-!
A small mutable-store model of Python objects, used to state that `combine`
never writes through its two argument references: dicts, sets and lists are
heap objects addressed by references, strings and integers are immutable
inline values.  `combineH` transcribes `combine` statement by statement as
reads, fresh allocations, and writes.
-/

/-- Inline (immutable) Python values or references to heap objects. -/
inductive HVal where
  | int (n : Int)
  | str (s : String)
  | ref (r : Nat)
deriving DecidableEq, Repr

/-- Heap objects: dicts, sets and lists. -/
inductive HObj where
  | hdict (entries : List (String × HVal))
  | hset (elems : List HVal)
  | hlist (elems : List HVal)
deriving DecidableEq, Repr

/-- A heap: allocation counter plus a store of bindings (newest first). -/
structure Heap where
  next : Nat
  mem : List (Nat × HObj)
deriving DecidableEq, Repr

def Heap.get (h : Heap) (r : Nat) : Option HObj :=
  (h.mem.find? fun p => p.1 = r).map Prod.snd

def Heap.alloc (h : Heap) (o : HObj) : Heap × Nat :=
  ({ next := h.next + 1, mem := (h.next, o) :: h.mem }, h.next)

def Heap.write (h : Heap) (r : Nat) (o : HObj) : Heap :=
  { h with mem := h.mem.map fun p => if p.1 = r then (p.1, o) else p }

/-- Python dict assignment `d[k] = v`: replace in place or append. -/
def dictSet : List (String × HVal) → String → HVal → List (String × HVal)
  | [], k, v => [(k, v)]
  | (k', v') :: rest, k, v =>
      if k' = k then (k, v) :: rest else (k', v') :: dictSet rest k v

def dictLookup : List (String × HVal) → String → Option HVal
  | [], _ => none
  | (k', v') :: rest, k => if k' = k then some v' else dictLookup rest k

/-- Read `d[k]` expecting an integer. -/
def Heap.readInt (h : Heap) (r : Nat) (k : String) : Option Int :=
  match h.get r with
  | some (.hdict es) =>
      match dictLookup es k with
      | some (.int n) => some n
      | _ => none
  | _ => none

/-- Read `d[k]` expecting a reference to another heap object. -/
def Heap.readRef (h : Heap) (r : Nat) (k : String) : Option Nat :=
  match h.get r with
  | some (.hdict es) =>
      match dictLookup es k with
      | some (.ref r') => some r'
      | _ => none
  | _ => none

/-- Python iteration over a heap object (for `set.update` and `list(...)`). -/
def HObj.elems : HObj → List HVal
  | .hset xs => xs
  | .hlist xs => xs
  | .hdict es => es.map fun p => .str p.1

/-- Python `len` of a heap object. -/
def HObj.hlen : HObj → Nat
  | .hset xs => xs.length
  | .hlist xs => xs.length
  | .hdict es => es.length

/-- Read the object behind `d[k]`. -/
def Heap.readObj (h : Heap) (r : Nat) (k : String) : Option HObj :=
  match h.readRef r k with
  | some r' => h.get r'
  | none => none

/-- `d[k] = v` on the dict at `r`. -/
def Heap.dictInsert (h : Heap) (r : Nat) (k : String) (v : HVal) : Option Heap :=
  match h.get r with
  | some (.hdict es) => some (h.write r (.hdict (dictSet es k v)))
  | _ => none

/-- `s.update(xs)` on the set at `r`. -/
def Heap.setUpdate (h : Heap) (r : Nat) (xs : List HVal) : Option Heap :=
  match h.get r with
  | some (.hset cur) => some (h.write r (.hset (setAddAll cur xs)))
  | _ => none

end HeapModel

namespace HeapModel

/-!
`combine` transcribed statement by statement over the heap, split into one
function per group of source statements.  `bitbucket` and `github` are the
references of the two argument dicts.  Reads fail (`none`) when an input is
not of the shape `combine` subscripts, exactly where Python would raise.
-/

/-- `results['followers'] = bitbucket['followers'] + github['followers']`. -/
def phaseFollowers (h4 : Heap) (bitbucket github res : Nat) : Option Heap :=
  match h4.readInt bitbucket "followers" with
  | none => none
  | some bf =>
    match h4.readInt github "followers" with
    | none => none
    | some gf => h4.dictInsert res "followers" (.int (bf + gf))

/-- `languages = set()`, `languages.update(bitbucket['languages'])`,
`languages.update(github['languages'])`; returns the new set's reference. -/
def phaseLangSet (h5 : Heap) (bitbucket github : Nat) : Option (Heap × Nat) :=
  let h6 := (h5.alloc (.hset [])).1
  let lset := (h5.alloc (.hset [])).2
  match h6.readObj bitbucket "languages" with
    | none => none
    | some bl =>
      match h6.setUpdate lset bl.elems with
      | none => none
      | some h7 =>
        match h7.readObj github "languages" with
        | none => none
        | some gl =>
          match h7.setUpdate lset gl.elems with
          | none => none
          | some h8 => some (h8, lset)

/-- `results['languages']['list'] = list(languages)` and
`results['languages']['count'] = len(results['languages']['list'])`. -/
def phaseLangList (h8 : Heap) (res lset : Nat) : Option Heap :=
  match h8.readRef res "languages" with
  | none => none
  | some lr =>
    match h8.get lset with
    | none => none
    | some lsobj =>
      let h9 := (h8.alloc (.hlist lsobj.elems)).1
      let llist := (h8.alloc (.hlist lsobj.elems)).2
      match h9.dictInsert lr "list" (.ref llist) with
        | none => none
        | some h10 =>
          match h10.readRef res "languages" with
          | none => none
          | some lr2 =>
            match h10.readObj lr2 "list" with
            | none => none
            | some llobj => h10.dictInsert lr2 "count" (.int llobj.hlen)

/-- `results['topics']['list'] = list(github['topics'])` and
`results['topics']['count'] = len(github['topics'])`. -/
def phaseTopics (h11 : Heap) (github res : Nat) : Option Heap :=
  match h11.readRef res "topics" with
  | none => none
  | some tr =>
    match h11.readObj github "topics" with
    | none => none
    | some gt =>
      let h12 := (h11.alloc (.hlist gt.elems)).1
      let tlist := (h11.alloc (.hlist gt.elems)).2
      match h12.dictInsert tr "list" (.ref tlist) with
        | none => none
        | some h13 =>
          match h13.readRef res "topics" with
          | none => none
          | some tr2 =>
            match h13.readObj github "topics" with
            | none => none
            | some gt2 => h13.dictInsert tr2 "count" (.int gt2.hlen)

/-- `results['repos']['forked'] = bitbucket['repos']['forked'] +
github['repos']['forked']`. -/
def phaseReposF (h14 : Heap) (bitbucket github res : Nat) : Option Heap :=
  match h14.readRef res "repos" with
  | none => none
  | some rr =>
    match h14.readRef bitbucket "repos" with
    | none => none
    | some brr =>
      match h14.readRef github "repos" with
      | none => none
      | some grr =>
        match h14.readInt brr "forked" with
        | none => none
        | some bfo =>
          match h14.readInt grr "forked" with
          | none => none
          | some gfo => h14.dictInsert rr "forked" (.int (bfo + gfo))

/-- `results['repos']['unforked'] = bitbucket['repos']['unforked'] +
github['repos']['unforked']`. -/
def phaseReposU (h15 : Heap) (bitbucket github res : Nat) : Option Heap :=
  match h15.readRef res "repos" with
  | none => none
  | some rr2 =>
    match h15.readRef bitbucket "repos" with
    | none => none
    | some brr2 =>
      match h15.readRef github "repos" with
      | none => none
      | some grr2 =>
        match h15.readInt brr2 "unforked" with
        | none => none
        | some bu =>
          match h15.readInt grr2 "unforked" with
          | none => none
          | some gu => h15.dictInsert rr2 "unforked" (.int (bu + gu))

/-- `results['repos']['count'] = results['repos']['forked'] +
results['repos']['unforked']` (read back from the result). -/
def phaseReposC (h16 : Heap) (res : Nat) : Option Heap :=
  match h16.readRef res "repos" with
  | none => none
  | some rr3 =>
    match h16.readInt rr3 "forked" with
    | none => none
    | some f1 =>
      match h16.readInt rr3 "unforked" with
      | none => none
      | some u1 => h16.dictInsert rr3 "count" (.int (f1 + u1))

/-- The three `results['repos'][...]` assignments in source order. -/
def phaseRepos (h14 : Heap) (bitbucket github res : Nat) : Option Heap :=
  match phaseReposF h14 bitbucket github res with
  | none => none
  | some h15 =>
    match phaseReposU h15 bitbucket github res with
    | none => none
    | some h16 => phaseReposC h16 res

/-- `results['watchers'] = bitbucket['watchers'] + github['watchers']`. -/
def phaseWatchers (h17 : Heap) (bitbucket github res : Nat) : Option Heap :=
  match h17.readInt bitbucket "watchers" with
  | none => none
  | some bw =>
    match h17.readInt github "watchers" with
    | none => none
    | some gw => h17.dictInsert res "watchers" (.int (bw + gw))

/-- The whole of `combine` over the heap: allocate the `results` dict and its
three fresh sub-dicts, then run the assignment phases in source order.
Returns the final heap and the `results` reference. -/
def combineH (h0 : Heap) (bitbucket github : Nat) : Option (Heap × Nat) :=
  let h1 := (h0.alloc (.hdict [])).1
  let dL := (h0.alloc (.hdict [])).2
  let h2 := (h1.alloc (.hdict [])).1
  let dT := (h1.alloc (.hdict [])).2
  let h3 := (h2.alloc (.hdict [])).1
  let dR := (h2.alloc (.hdict [])).2
  let resDict : HObj :=
    .hdict [("languages", .ref dL), ("topics", .ref dT), ("repos", .ref dR)]
  let h4 := (h3.alloc resDict).1
  let res := (h3.alloc resDict).2
  match phaseFollowers h4 bitbucket github res with
  | none => none
  | some h5 =>
    match phaseLangSet h5 bitbucket github with
    | none => none
    | some (h8, lset) =>
      match phaseLangList h8 res lset with
      | none => none
      | some h11 =>
        match phaseTopics h11 github res with
        | none => none
        | some h14 =>
          match phaseRepos h14 bitbucket github res with
          | none => none
          | some h17 =>
            match phaseWatchers h17 bitbucket github res with
            | none => none
            | some h18 => some (h18, res)

theorem Heap.get_alloc_ne (h : Heap) (o : HObj) (a : Nat) (ha : a ≠ h.next) :
    (h.alloc o).1.get a = h.get a := by
  simp only [Heap.alloc, Heap.get]
  rw [List.find?_cons_of_neg]
  simp only [decide_eq_true_eq]
  exact fun hn => ha hn.symm

theorem Heap.get_alloc_self (h : Heap) (o : HObj) :
    (h.alloc o).1.get h.next = some o := by
  simp only [Heap.alloc, Heap.get]
  rw [List.find?_cons_of_pos] <;> simp

theorem Heap.next_alloc (h : Heap) (o : HObj) :
    (h.alloc o).1.next = h.next + 1 := rfl

theorem findWriteNe (l : List (Nat × HObj)) (r : Nat) (o : HObj) (a : Nat)
    (ha : a ≠ r) :
    (l.map fun p => if p.1 = r then (p.1, o) else p).find?
        (fun p => decide (p.1 = a)) =
      l.find? fun p => decide (p.1 = a) := by
  induction l with
  | nil => rfl
  | cons p rest ih =>
      obtain ⟨k, v⟩ := p
      by_cases hk : k = r
      · subst hk
        have hka : ¬ (k = a) := fun hn => ha hn.symm
        simp [List.find?_cons, hka, ih]
      · by_cases hka : k = a
        · subst hka
          simp [List.find?_cons, hk]
        · simp [List.find?_cons, hk, hka, ih]

theorem Heap.get_write_ne (h : Heap) (r : Nat) (o : HObj) (a : Nat)
    (ha : a ≠ r) : (h.write r o).get a = h.get a := by
  simp only [Heap.write, Heap.get]
  rw [findWriteNe h.mem r o a ha]

theorem findWriteSelf (l : List (Nat × HObj)) (r : Nat) (o : HObj)
    (hr : (l.find? fun p => decide (p.1 = r)).isSome = true) :
    ((l.map fun p => if p.1 = r then (p.1, o) else p).find?
        (fun p => decide (p.1 = r))).map Prod.snd = some o := by
  induction l with
  | nil => simp [List.find?] at hr
  | cons p rest ih =>
      obtain ⟨k, v⟩ := p
      by_cases hk : k = r
      · subst hk
        simp [List.find?_cons]
      · simp only [List.find?_cons, List.map_cons, if_neg hk] at hr ⊢
        simp only [decide_eq_false hk] at hr ⊢
        exact ih hr

theorem Heap.get_write_self (h : Heap) (r : Nat) (o o' : HObj)
    (hr : h.get r = some o') : (h.write r o).get r = some o := by
  simp only [Heap.write, Heap.get] at hr ⊢
  exact findWriteSelf h.mem r o (by
    cases hf : h.mem.find? fun p => decide (p.1 = r) with
    | none => rw [hf] at hr; simp at hr
    | some q => simp [hf])

theorem Heap.next_write (h : Heap) (r : Nat) (o : HObj) :
    (h.write r o).next = h.next := rfl

theorem Heap.dictInsert_frame (h h' : Heap) (r : Nat) (k : String) (v : HVal)
    (hs : h.dictInsert r k v = some h') :
    h'.next = h.next ∧ ∀ a, a ≠ r → h'.get a = h.get a := by
  unfold Heap.dictInsert at hs
  cases hg : h.get r with
  | none => rw [hg] at hs; exact absurd hs (by simp)
  | some o =>
      rw [hg] at hs
      cases o with
      | hdict es =>
          simp only [Option.some_inj] at hs
          subst hs
          exact ⟨rfl, fun a ha => Heap.get_write_ne h r _ a ha⟩
      | hset xs => exact absurd hs (by simp)
      | hlist xs => exact absurd hs (by simp)

theorem Heap.dictInsert_get_self (h h' : Heap) (r : Nat) (k : String)
    (v : HVal) (es : List (String × HVal)) (hg : h.get r = some (.hdict es))
    (hs : h.dictInsert r k v = some h') :
    h'.get r = some (.hdict (dictSet es k v)) := by
  unfold Heap.dictInsert at hs
  rw [hg] at hs
  simp only [Option.some_inj] at hs
  subst hs
  exact Heap.get_write_self h r _ _ hg

theorem Heap.setUpdate_frame (h h' : Heap) (r : Nat) (xs : List HVal)
    (hs : h.setUpdate r xs = some h') :
    h'.next = h.next ∧ ∀ a, a ≠ r → h'.get a = h.get a := by
  unfold Heap.setUpdate at hs
  cases hg : h.get r with
  | none => rw [hg] at hs; exact absurd hs (by simp)
  | some o =>
      rw [hg] at hs
      cases o with
      | hset cur =>
          simp only [Option.some_inj] at hs
          subst hs
          exact ⟨rfl, fun a ha => Heap.get_write_ne h r _ a ha⟩
      | hdict es => exact absurd hs (by simp)
      | hlist ys => exact absurd hs (by simp)

end HeapModel

/-! Generic association-list lookup for rendered result dicts. -/

def lookupKey {α : Type} : List (String × α) → String → Option α
  | [], _ => none
  | (k, v) :: rest, key => if k = key then some v else lookupKey rest key

theorem mem_setAdd {α : Type} [DecidableEq α] (xs : List α) (x a : α) :
    a ∈ setAdd xs x ↔ a ∈ xs ∨ a = x := by
  unfold setAdd
  by_cases hx : x ∈ xs
  · rw [if_pos hx]
    constructor
    · exact fun h => Or.inl h
    · rintro (h | rfl)
      · exact h
      · exact hx
  · rw [if_neg hx]
    simp

theorem nodup_setAdd {α : Type} [DecidableEq α] (xs : List α) (x : α)
    (h : xs.Nodup) : (setAdd xs x).Nodup := by
  unfold setAdd
  by_cases hx : x ∈ xs
  · rwa [if_pos hx]
  · rw [if_neg hx, List.nodup_append]
    refine ⟨h, List.nodup_singleton x, ?_⟩
    intro a ha hmem
    rw [List.mem_singleton] at hmem
    subst hmem
    exact hx ha

theorem mem_setAddAll {α : Type} [DecidableEq α] (ys xs : List α) (a : α) :
    a ∈ setAddAll xs ys ↔ a ∈ xs ∨ a ∈ ys := by
  induction ys generalizing xs with
  | nil => simp [setAddAll]
  | cons y ys ih =>
      unfold setAddAll at ih ⊢
      rw [List.foldl_cons, ih, mem_setAdd]
      constructor
      · rintro ((h | rfl) | h)
        · exact Or.inl h
        · exact Or.inr (List.mem_cons_self _ _)
        · exact Or.inr (List.mem_cons_of_mem _ h)
      · rintro (h | h)
        · exact Or.inl (Or.inl h)
        · rcases List.mem_cons.mp h with rfl | h
          · exact Or.inl (Or.inr rfl)
          · exact Or.inr h

theorem nodup_setAddAll {α : Type} [DecidableEq α] (ys xs : List α)
    (h : xs.Nodup) : (setAddAll xs ys).Nodup := by
  induction ys generalizing xs with
  | nil => exact h
  | cons y ys ih =>
      unfold setAddAll at ih ⊢
      rw [List.foldl_cons]
      exact ih _ (nodup_setAdd _ _ h)

/-- The Scenario 5 Bitbucket-side input from the spec. -/
def scenario5Bitbucket : Bitbucket.Result :=
  { followers := 1, languages := [.str "python"],
    repos := { forked := 1, unforked := 1 }, watchers := 1 }

/-- The Scenario 5 Github-side input from the spec. -/
def scenario5Github : Github.Result :=
  { followers := 1, languages := ["javascript"],
    repos := { forked := 1, unforked := 1 }, topics := [.str "flask"],
    watchers := 1 }

/-- The Scenario 5 expected merged result (language list in the model's
insertion order; the spec leaves it unordered). -/
def scenario5Merged : CombResult :=
  { followers := 2,
    languages_list := [.str "python", .str "javascript"],
    languages_count := 2,
    topics_list := [.str "flask"], topics_count := 1,
    repos := { forked := 2, unforked := 2, count := 4 }, watchers := 2 }

/-- C8: `combine` sums `followers` and `watchers`, sums the `forked` and
`unforked` repo fields field-wise, makes `languages.list` a duplicate-free
list whose members are exactly the union of both language sets (Github
languages entering as string values) with `languages.count` its length, and
takes `topics.list` and `topics.count` solely from the Github-shaped input;
on the spec's Scenario 5 inputs it produces exactly the expected merged
result. -/
theorem claim_C8_merge_fieldwise (b : Bitbucket.Result) (g : Github.Result) :
    (combine b g).followers = b.followers + g.followers
  ∧ (combine b g).watchers = b.watchers + g.watchers
  ∧ (combine b g).repos.forked = b.repos.forked + g.repos.forked
  ∧ (combine b g).repos.unforked = b.repos.unforked + g.repos.unforked
  ∧ (combine b g).languages_list.Nodup
  ∧ (∀ x, x ∈ (combine b g).languages_list ↔
        x ∈ b.languages ∨ x ∈ g.languages.map JValue.str)
  ∧ (combine b g).languages_count = ((combine b g).languages_list.length : Int)
  ∧ (combine b g).topics_list = g.topics
  ∧ (combine b g).topics_count = (g.topics.length : Int)
  ∧ combine scenario5Bitbucket scenario5Github = scenario5Merged := by
  refine ⟨rfl, rfl, rfl, rfl, ?_, ?_, rfl, rfl, rfl, by decide⟩
  · exact nodup_setAddAll _ _ (nodup_setAddAll _ _ List.nodup_nil)
  · intro x
    show x ∈ setAddAll (setAddAll [] b.languages) (g.languages.map .str) ↔ _
    rw [mem_setAddAll, mem_setAddAll]
    simp

/-- C2 (amended): the merged result satisfies
`repos.count = repos.forked + repos.unforked`; the per-platform results of
both collectors carry a `repos` dict with only the keys `'forked'` and
`'unforked'` — no `'count'` key exists there. -/
theorem claim_C2_repos_count_amended (b : Bitbucket.Result) (g : Github.Result) :
    (combine b g).repos.count =
      (combine b g).repos.forked + (combine b g).repos.unforked
  ∧ (∀ s : Bitbucket.State,
      lookupKey (Bitbucket.buildResult s).repos.dict "count" = none)
  ∧ (∀ s : Github.State,
      lookupKey (Github.buildResult s).repos.dict "count" = none)
  ∧ (∀ s : Bitbucket.State,
      (Bitbucket.buildResult s).repos.dict =
        [("forked", s.forked), ("unforked", s.unforked)]) := by
  exact ⟨rfl, fun s => rfl, fun s => rfl, fun s => rfl⟩

/-- C2 (counterexample): a concrete `make_response` run (here: transport
failing every call) returns a `repos` dict `[('forked', 0), ('unforked', 0)]`
with no `'count'` key, so `repos.count == repos.forked + repos.unforked` fails
for per-platform results — accessing `repos['count']` would be a `KeyError`. -/
theorem claim_C2_counterexample :
    ((Bitbucket.make_response (fun _ => .connFail) 1 "org"
        Bitbucket.initState).1.map
      fun r => (r.repos.dict, lookupKey r.repos.dict "count")) =
      .ok ([("forked", 0), ("unforked", 0)], none) := rfl

/-- The default Bitbucket result. -/
def bbDefaultResult : Bitbucket.Result :=
  { followers := 0, languages := [],
    repos := { forked := 0, unforked := 0 }, watchers := 0 }

/-- The default Github result (with `topics: []`). -/
def ghDefaultResult : Github.Result :=
  { followers := 0, languages := [],
    repos := { forked := 0, unforked := 0 }, topics := [], watchers := 0 }

/-- C5: under a transport for which every fetch raises connectivity-failure,
`make_response` of either collector swallows the failure and returns the
fully-shaped default result: `followers 0`, empty language set, `repos`
`forked 0 / unforked 0`, `watchers 0`, and for Github additionally
`topics []`. -/
theorem claim_C5_conn_failure_defaults
    (t : Bitbucket.Transport) (g : Github.GTransport)
    (org orgG : String) (fuel : Nat)
    (hb : ∀ u, t u = .connFail) (hg : ∀ u, g u = .connFail) :
    (Bitbucket.make_response t (fuel + 1) org Bitbucket.initState).1 =
      .ok bbDefaultResult
  ∧ (Github.make_response g orgG Github.initState).1 = .ok ghDefaultResult := by
  constructor
  · simp [Bitbucket.make_response, Bitbucket.process_repos,
      Bitbucket.get_all_results, Bitbucket.getAllLoop, hb,
      Bitbucket.State.addCalls, Bitbucket.buildResult, Bitbucket.initState,
      bbDefaultResult]
  · simp [Github.make_response, Github.process_repos, Github.get_all_repos,
      hg, Github.State.addCalls, Github.buildResult, Github.initState,
      ghDefaultResult]

/-- Witness for C5 at a concrete all-failing transport. -/
theorem claim_C5_witness :
    (Bitbucket.make_response (fun _ => .connFail) 1 "orgA"
        Bitbucket.initState).1 = .ok bbDefaultResult
  ∧ (Github.make_response (fun _ => .connFail) "orgB"
        Github.initState).1 = .ok ghDefaultResult :=
  claim_C5_conn_failure_defaults (fun _ => .connFail) (fun _ => .connFail)
    "orgA" "orgB" 0 (fun _ => rfl) (fun _ => rfl)

/-- C9: with a deterministic transport, two runs of `make_response` on fresh
collector states built for the same organisation yield equal results, for
each collector. -/
theorem claim_C9_deterministic :
    (∀ (t : Bitbucket.Transport) (fuel : Nat) (org : String)
        (s₁ s₂ : Bitbucket.State), s₁ = Bitbucket.initState →
        s₂ = Bitbucket.initState →
        Bitbucket.make_response t fuel org s₁ =
          Bitbucket.make_response t fuel org s₂)
  ∧ (∀ (g : Github.GTransport) (org : String) (u₁ u₂ : Github.State),
        u₁ = Github.initState → u₂ = Github.initState →
        Github.make_response g org u₁ = Github.make_response g org u₂) := by
  constructor
  · intro t fuel org s₁ s₂ h₁ h₂
    rw [h₁, h₂]
  · intro g org u₁ u₂ h₁ h₂
    rw [h₁, h₂]

/-- Witness for C9 at a concrete deterministic transport. -/
theorem claim_C9_witness :
    Bitbucket.make_response (fun _ => .invalid) 2 "org" Bitbucket.initState =
      Bitbucket.make_response (fun _ => .invalid) 2 "org" Bitbucket.initState
  ∧ Github.make_response (fun _ => .invalid) "org" Github.initState =
      Github.make_response (fun _ => .invalid) "org" Github.initState :=
  ⟨claim_C9_deterministic.1 (fun _ => .invalid) 2 "org" _ _ rfl rfl,
   claim_C9_deterministic.2 (fun _ => .invalid) "org" _ _ rfl rfl⟩

/-- A repository record with `name` but no `language` key. -/
def repoNoLanguage : JValue := .obj [("name", .str "r1")]

/-- Transport whose repository listing contains a record without a
`language` key. -/
def c1Transport : Bitbucket.Transport := fun u =>
  if u = Bitbucket.reposUrl "org" then
    .ok (.obj [("values", .arr [repoNoLanguage])])
  else .invalid

/-- C1 (counterexample): on a repository record lacking the `language` key,
`process_repos` raises `KeyError` (`repo['language']` has no handler), and the
error propagates out of `make_response` (which catches only
`ConnectionResetError`) — the collector does not substitute a default. -/
theorem claim_C1_counterexample :
    (Bitbucket.make_response c1Transport 2 "org" Bitbucket.initState).1 =
      .error .keyError := rfl

/-- C1 (amended): the pagination helper `get_result` does treat a page body
missing `'values'` as invalid-resource, substituting `[]` (record mode) or
`0` (count mode); but the per-repository operations do not: a fork-listing
response without `'values'` raises an uncaught `KeyError` from
`update_repo_count`, and a repository record missing `'language'` raises an
uncaught `KeyError` from the `process_repos` loop. -/
theorem claim_C1_missing_fields_amended :
    (∀ (fs : List (String × JValue)) (data : Bool),
        lookupField fs "values" = none →
        Bitbucket.get_result (.obj fs) data =
          .ok (if data then .recs [] else .cnt 0))
  ∧ (∀ (t : Bitbucket.Transport) (u : String) (s : Bitbucket.State)
        (fields : List (String × JValue)),
        t u = .ok (.obj fields) → lookupField fields "values" = none →
        Bitbucket.update_repo_count t (.str u) s =
          (some .keyError, s.addCalls [u]))
  ∧ (∀ (t : Bitbucket.Transport) (fuel : Nat) (org : String)
        (s : Bitbucket.State) (fs : List (String × JValue))
        (rest : List JValue),
        lookupField fs "language" = none →
        Bitbucket.processList t fuel org (.obj fs :: rest) s =
          (some .keyError, s)) := by
  refine ⟨?_, ?_, ?_⟩
  · intro fs data h
    simp [Bitbucket.get_result, h]
  · intro t u s fields ht hv
    simp [Bitbucket.update_repo_count, ht, getItemE, hv]
  · intro t fuel org s fs rest h
    simp [Bitbucket.processList, getItemE, h]

/-- Witness for C1's amended claim at concrete inputs. -/
theorem claim_C1_witness :
    Bitbucket.get_result (.obj [("next", .null)]) true = .ok (.recs [])
  ∧ Bitbucket.update_repo_count (fun _ => .ok (.obj [])) (.str "u")
      Bitbucket.initState = (some .keyError, Bitbucket.initState.addCalls ["u"])
  ∧ Bitbucket.processList (fun _ => .invalid) 1 "org" [repoNoLanguage]
      Bitbucket.initState = (some .keyError, Bitbucket.initState) :=
  ⟨claim_C1_missing_fields_amended.1 [("next", .null)] true rfl,
   claim_C1_missing_fields_amended.2.1 (fun _ => .ok (.obj [])) "u"
     Bitbucket.initState [] rfl rfl,
   claim_C1_missing_fields_amended.2.2 (fun _ => .invalid) 1 "org"
     Bitbucket.initState [("name", .str "r1")] [] rfl⟩

/-- The single repository record used by Scenarios 1 and 2. -/
def scenarioRepo : JValue :=
  .obj [("language", .str "python"),
    ("links", .obj [("forks", .obj [("href", .str "https://fork.link/r1")])]),
    ("name", .str "r1")]

/-- Scenario 1 transport: one repository page, empty fork listing, empty
watcher and follower listings. -/
def scenario1Transport : Bitbucket.Transport := fun u =>
  if u = Bitbucket.reposUrl "org" then .ok (.obj [("values", .arr [scenarioRepo])])
  else if u = "https://fork.link/r1" then .ok (.obj [("values", .arr [])])
  else if u = Bitbucket.watchersUrl "org" "r1" then .ok (.obj [("values", .arr [])])
  else if u = Bitbucket.followersUrl "org" then .ok (.obj [("values", .arr [])])
  else .invalid

/-- Scenario 2 transport: as Scenario 1 but the fork listing has one entry. -/
def scenario2Transport : Bitbucket.Transport := fun u =>
  if u = Bitbucket.reposUrl "org" then .ok (.obj [("values", .arr [scenarioRepo])])
  else if u = "https://fork.link/r1" then .ok (.obj [("values", .arr [.obj []]),
    ("next", .null)])
  else if u = Bitbucket.watchersUrl "org" "r1" then .ok (.obj [("values", .arr [])])
  else if u = Bitbucket.followersUrl "org" then .ok (.obj [("values", .arr [])])
  else .invalid

/-- C3: `update_repo_count` classifies a repository as forked exactly when the
fork-listing sub-request returns a page whose `'values'` list is nonempty,
and as unforked when the listing is empty or the sub-request is
invalid-resource; end to end, one repository with an empty fork listing gives
`repos = (forked 0, unforked 1)` and one with a nonempty listing gives
`repos = (forked 1, unforked 0)`. -/
theorem claim_C3_fork_classification :
    (∀ (t : Bitbucket.Transport) (u : String) (s : Bitbucket.State)
        (fields : List (String × JValue)) (vs : List JValue),
        t u = .ok (.obj fields) →
        lookupField fields "values" = some (.arr vs) →
        Bitbucket.update_repo_count t (.str u) s =
          (none,
            if vs.isEmpty then
              { s.addCalls [u] with unforked := s.unforked + 1 }
            else { s.addCalls [u] with forked := s.forked + 1 }))
  ∧ (∀ (t : Bitbucket.Transport) (u : String) (s : Bitbucket.State),
        t u = .invalid →
        Bitbucket.update_repo_count t (.str u) s =
          (none, { s.addCalls [u] with unforked := s.unforked + 1 }))
  ∧ ((Bitbucket.make_response scenario1Transport 2 "org"
        Bitbucket.initState).1.map fun r => r.repos) =
      .ok { forked := 0, unforked := 1 }
  ∧ ((Bitbucket.make_response scenario2Transport 2 "org"
        Bitbucket.initState).1.map fun r => r.repos) =
      .ok { forked := 1, unforked := 0 } := by
  refine ⟨?_, ?_, rfl, rfl⟩
  · intro t u s fields vs ht hv
    cases vs with
    | nil => simp [Bitbucket.update_repo_count, ht, getItemE, hv, truthy]
    | cons v vs => simp [Bitbucket.update_repo_count, ht, getItemE, hv, truthy]
  · intro t u s ht
    simp [Bitbucket.update_repo_count, ht]

/-- Witness for C3 at concrete inputs. -/
theorem claim_C3_witness :
    Bitbucket.update_repo_count (fun _ => .ok (.obj [("values", .arr [.obj []])]))
        (.str "u") Bitbucket.initState =
      (none, { Bitbucket.initState.addCalls ["u"] with forked := 1 })
  ∧ Bitbucket.update_repo_count (fun _ => .invalid) (.str "u")
        Bitbucket.initState =
      (none, { Bitbucket.initState.addCalls ["u"] with unforked := 1 }) :=
  ⟨claim_C3_fork_classification.1 (fun _ => .ok (.obj [("values", .arr [.obj []])]))
      "u" Bitbucket.initState [("values", .arr [.obj []])] [.obj []] rfl rfl,
   claim_C3_fork_classification.2.1 (fun _ => .invalid) "u"
      Bitbucket.initState rfl⟩

/-! Cursor-style pagination chains (Bitbucket `get_all_results`). -/

/-- Description of one page of a cursor-style chain: the URL it is served at,
the fields of its JSON body, and the record list held by its `'values'`
field. -/
structure BPage where
  url : String
  fields : List (String × JValue)
  recs : List JValue

/-- The transport serves page `p` at `p.url` with a `'values'` record list. -/
def pageOk (t : Bitbucket.Transport) (p : BPage) : Prop :=
  t p.url = .ok (.obj p.fields) ∧
  lookupField p.fields "values" = some (.arr p.recs)

/-- `chainFrom t u ps`: starting at URL `u`, the pages `ps` form a complete
cursor chain — each page's `'next'` field holds the (truthy) URL of the next
page, and the last page's `'next'` is absent or falsy. -/
def chainFrom (t : Bitbucket.Transport) : String → List BPage → Prop
  | _, [] => True
  | u, [p] => p.url = u ∧ pageOk t p ∧
      truthy ((lookupField p.fields "next").getD .null) = false
  | u, p :: q :: rest => p.url = u ∧ pageOk t p ∧
      (lookupField p.fields "next").getD .null = .str q.url ∧ q.url ≠ "" ∧
      chainFrom t q.url (q :: rest)

theorem getAllLoop_chain_recs (t : Bitbucket.Transport) :
    ∀ (ps : List BPage) (u : String) (fuel : Nat) (acc : List JValue),
      chainFrom t u ps → ps ≠ [] → ps.length ≤ fuel →
      Bitbucket.getAllLoop t true fuel (.str u) (.recs acc) =
        (.ok (.recs (acc ++ (ps.map (·.recs)).flatten)), ps.map (·.url))
  | [], _, _, _, _, hne, _ => absurd rfl hne
  | [p], u, fuel, acc, hch, _, hlen => by
      obtain ⟨hu, ⟨ht, hv⟩, hnx⟩ := hch
      subst hu
      cases fuel with
      | zero => simp at hlen
      | succ f =>
          simp [Bitbucket.getAllLoop, ht, Bitbucket.get_result, hv, pyIter,
            Bitbucket.PagAcc.add, Except.map, hnx]
  | p :: q :: rest, u, fuel, acc, hch, _, hlen => by
      obtain ⟨hu, ⟨ht, hv⟩, hnx, hqne, hch'⟩ := hch
      subst hu
      cases fuel with
      | zero => simp at hlen
      | succ f =>
          have hlen' : (q :: rest).length ≤ f := by
            simp only [List.length_cons] at hlen ⊢
            omega
          have ih := getAllLoop_chain_recs t (q :: rest) q.url f
            (acc ++ p.recs) hch' (by simp) hlen'
          have hE : q.url.isEmpty = false := by
            cases hE : q.url.isEmpty
            · rfl
            · exact absurd ((String.isEmpty_iff q.url).mp hE) hqne
          have htr : truthy (.str q.url) = true := by
            simp [truthy, hE]
          simp only [Bitbucket.getAllLoop, ht, Bitbucket.get_result, hv, pyIter,
            Bitbucket.PagAcc.add, Except.map, hnx, htr, if_true]
          simp [ih, List.append_assoc]

theorem getAllLoop_chain_cnt (t : Bitbucket.Transport) :
    ∀ (ps : List BPage) (u : String) (fuel : Nat) (acc : Nat),
      chainFrom t u ps → ps ≠ [] → ps.length ≤ fuel →
      Bitbucket.getAllLoop t false fuel (.str u) (.cnt acc) =
        (.ok (.cnt (acc + (ps.map (·.recs.length)).sum)), ps.map (·.url))
  | [], _, _, _, _, hne, _ => absurd rfl hne
  | [p], u, fuel, acc, hch, _, hlen => by
      obtain ⟨hu, ⟨ht, hv⟩, hnx⟩ := hch
      subst hu
      cases fuel with
      | zero => simp at hlen
      | succ f =>
          simp [Bitbucket.getAllLoop, ht, Bitbucket.get_result, hv, pyLen,
            Bitbucket.PagAcc.add, Except.map, hnx]
  | p :: q :: rest, u, fuel, acc, hch, _, hlen => by
      obtain ⟨hu, ⟨ht, hv⟩, hnx, hqne, hch'⟩ := hch
      subst hu
      cases fuel with
      | zero => simp at hlen
      | succ f =>
          have hlen' : (q :: rest).length ≤ f := by
            simp only [List.length_cons] at hlen ⊢
            omega
          have ih := getAllLoop_chain_cnt t (q :: rest) q.url f
            (acc + p.recs.length) hch' (by simp) hlen'
          have hE : q.url.isEmpty = false := by
            cases hE : q.url.isEmpty
            · rfl
            · exact absurd ((String.isEmpty_iff q.url).mp hE) hqne
          have htr : truthy (.str q.url) = true := by
            simp [truthy, hE]
          simp only [Bitbucket.getAllLoop, ht, Bitbucket.get_result, hv, pyLen,
            Bitbucket.PagAcc.add, Except.map, hnx, htr, if_true]
          simp [ih, Nat.add_assoc]

/-- C7: over any complete cursor chain (each page naming the next page's URL
in its `'next'` field, absence/falsiness ending the chain), `get_all_results`
in record mode returns the concatenation of the per-page record lists in page
order, in count mode the sum of the per-page record counts, and in both modes
it fetches exactly the chain's URLs in order — page N+1 at exactly the URL
given by page N. -/
theorem claim_C7_cursor_pagination (t : Bitbucket.Transport) (ps : List BPage)
    (u : String) (fuel : Nat) (hch : chainFrom t u ps) (hne : ps ≠ [])
    (hlen : ps.length ≤ fuel) :
    Bitbucket.get_all_results t fuel u true =
      (.ok (.recs ((ps.map (·.recs)).flatten)), ps.map (·.url))
  ∧ Bitbucket.get_all_results t fuel u false =
      (.ok (.cnt ((ps.map (·.recs.length)).sum)), ps.map (·.url)) := by
  constructor
  · have h := getAllLoop_chain_recs t ps u fuel [] hch hne hlen
    simpa [Bitbucket.get_all_results] using h
  · have h := getAllLoop_chain_cnt t ps u fuel 0 hch hne hlen
    simpa [Bitbucket.get_all_results] using h

/-- Witness for C7: a concrete two-page chain. -/
theorem claim_C7_witness :
    Bitbucket.get_all_results
        (fun u =>
          if u = "u0" then
            .ok (.obj [("values", .arr [.num 1]), ("next", .str "u1")])
          else if u = "u1" then .ok (.obj [("values", .arr [.num 2, .num 3])])
          else .invalid) 2 "u0" true =
      (.ok (.recs [.num 1, .num 2, .num 3]), ["u0", "u1"]) := by
  have h := (claim_C7_cursor_pagination
    (fun u =>
      if u = "u0" then
        .ok (.obj [("values", .arr [.num 1]), ("next", .str "u1")])
      else if u = "u1" then .ok (.obj [("values", .arr [.num 2, .num 3])])
      else .invalid)
    [{ url := "u0", fields := [("values", .arr [.num 1]), ("next", .str "u1")],
       recs := [.num 1] },
     { url := "u1", fields := [("values", .arr [.num 2, .num 3])],
       recs := [.num 2, .num 3] }]
    "u0" 2
    ⟨rfl, ⟨by decide, rfl⟩, rfl, by decide, rfl, ⟨by decide, rfl⟩, rfl⟩
    (by simp) (by decide)).1
  simpa using h

/-- The URL the last page of a partial chain points at: the next page's URL,
or the failing URL once the chain is exhausted. -/
def nextU : List BPage → String → String
  | [], uf => uf
  | q :: _, _ => q.url

/-- `failChainFrom t u ps uf`: starting at `u`, the pages `ps` are served
correctly, each naming the following page in `'next'`, the last one naming
`uf` — and fetching `uf` fails with invalid-resource. -/
def failChainFrom (t : Bitbucket.Transport) :
    String → List BPage → String → Prop
  | u, [], uf => u = uf ∧ t uf = .invalid
  | u, p :: rest, uf => p.url = u ∧ pageOk t p ∧
      (lookupField p.fields "next").getD .null = .str (nextU rest uf) ∧
      nextU rest uf ≠ "" ∧ failChainFrom t (nextU rest uf) rest uf

theorem getAllLoop_failchain_recs (t : Bitbucket.Transport) :
    ∀ (ps : List BPage) (u uf : String) (fuel : Nat) (acc : List JValue),
      failChainFrom t u ps uf → ps.length < fuel →
      Bitbucket.getAllLoop t true fuel (.str u) (.recs acc) =
        (.ok (.recs (acc ++ (ps.map (·.recs)).flatten)), ps.map (·.url) ++ [uf])
  | [], u, uf, fuel, acc, hch, hlen => by
      obtain ⟨hu, hinv⟩ := hch
      subst hu
      cases fuel with
      | zero => omega
      | succ f => simp [Bitbucket.getAllLoop, hinv]
  | p :: rest, u, uf, fuel, acc, hch, hlen => by
      obtain ⟨hu, ⟨ht, hv⟩, hnx, hqne, hch'⟩ := hch
      subst hu
      cases fuel with
      | zero => simp at hlen
      | succ f =>
          have hlen' : rest.length < f := by
            simp only [List.length_cons] at hlen
            omega
          have hE : (nextU rest uf).isEmpty = false := by
            cases hE : (nextU rest uf).isEmpty
            · rfl
            · exact absurd ((String.isEmpty_iff _).mp hE) hqne
          have htr : truthy (.str (nextU rest uf)) = true := by
            simp [truthy, hE]
          have ih := getAllLoop_failchain_recs t rest (nextU rest uf) uf f
            (acc ++ p.recs) hch' hlen'
          simp only [Bitbucket.getAllLoop, ht, Bitbucket.get_result, hv, pyIter,
            Bitbucket.PagAcc.add, Except.map, hnx, htr, if_true]
          simp [ih, List.append_assoc]

theorem getAllLoop_failchain_cnt (t : Bitbucket.Transport) :
    ∀ (ps : List BPage) (u uf : String) (fuel : Nat) (acc : Nat),
      failChainFrom t u ps uf → ps.length < fuel →
      Bitbucket.getAllLoop t false fuel (.str u) (.cnt acc) =
        (.ok (.cnt (acc + (ps.map (·.recs.length)).sum)),
          ps.map (·.url) ++ [uf])
  | [], u, uf, fuel, acc, hch, hlen => by
      obtain ⟨hu, hinv⟩ := hch
      subst hu
      cases fuel with
      | zero => omega
      | succ f => simp [Bitbucket.getAllLoop, hinv]
  | p :: rest, u, uf, fuel, acc, hch, hlen => by
      obtain ⟨hu, ⟨ht, hv⟩, hnx, hqne, hch'⟩ := hch
      subst hu
      cases fuel with
      | zero => simp at hlen
      | succ f =>
          have hlen' : rest.length < f := by
            simp only [List.length_cons] at hlen
            omega
          have hE : (nextU rest uf).isEmpty = false := by
            cases hE : (nextU rest uf).isEmpty
            · rfl
            · exact absurd ((String.isEmpty_iff _).mp hE) hqne
          have htr : truthy (.str (nextU rest uf)) = true := by
            simp [truthy, hE]
          have ih := getAllLoop_failchain_cnt t rest (nextU rest uf) uf f
            (acc + p.recs.length) hch' hlen'
          simp only [Bitbucket.getAllLoop, ht, Bitbucket.get_result, hv, pyLen,
            Bitbucket.PagAcc.add, Except.map, hnx, htr, if_true]
          simp [ih, Nat.add_assoc]

/-- `ghPagesOk t link ns rss`: each page number in `ns`, fetched at
`f'{link}&page={n}'`, is served with the corresponding record array of
`rss`. -/
def ghPagesOk (t : Github.GTransport) (link : String) :
    List Int → List (List JValue) → Prop
  | [], [] => True
  | n :: ns, rs :: rss =>
      (∃ hs, t (Github.pageUrl link n) = .ok (.arr rs) hs) ∧
      ghPagesOk t link ns rss
  | _, _ => False

theorem ghPagesLoop_fail (t : Github.GTransport) (link : String) (j : Int)
    (hj : t (Github.pageUrl link j) = .invalid) :
    ∀ (ns : List Int) (rss : List (List JValue)) (more : List Int)
      (acc : List JValue) (tr : List String), ghPagesOk t link ns rss →
      Github.ghPagesLoop t link (ns ++ j :: more) acc tr =
        (.ok (acc ++ rss.flatten),
          tr ++ ns.map (Github.pageUrl link) ++ [Github.pageUrl link j])
  | [], [], more, acc, tr, _ => by
      simp [Github.ghPagesLoop, hj]
  | [], _ :: _, _, _, _, hok => absurd hok (by simp [ghPagesOk])
  | _ :: _, [], _, _, _, hok => absurd hok (by simp [ghPagesOk])
  | n :: ns, rs :: rss, more, acc, tr, hok => by
      obtain ⟨⟨hs, hn⟩, hok'⟩ := hok
      have ih := ghPagesLoop_fail t link j hj ns rss more (acc ++ rs)
        (tr ++ [Github.pageUrl link n]) hok'
      simp only [List.cons_append, Github.ghPagesLoop, hn, pyIter]
      simp [ih, List.append_assoc]

/-- C6: if an underlying page fetch fails with invalid-resource, pagination
halts at that fetch and returns exactly what accumulated before it, without
an error: for the cursor-style paginator in record and count mode (including
the empty accumulation when the very first fetch fails, `ps = []`), and for
the header-style repository listing both when its first fetch fails and when
page `j` of the `2..N` loop fails. -/
theorem claim_C6_invalid_halts_pagination :
    (∀ (t : Bitbucket.Transport) (ps : List BPage) (u uf : String)
        (fuel : Nat), failChainFrom t u ps uf → ps.length < fuel →
        Bitbucket.get_all_results t fuel u true =
          (.ok (.recs ((ps.map (·.recs)).flatten)), ps.map (·.url) ++ [uf]))
  ∧ (∀ (t : Bitbucket.Transport) (ps : List BPage) (u uf : String)
        (fuel : Nat), failChainFrom t u ps uf → ps.length < fuel →
        Bitbucket.get_all_results t fuel u false =
          (.ok (.cnt ((ps.map (·.recs.length)).sum)), ps.map (·.url) ++ [uf]))
  ∧ (∀ (g : Github.GTransport) (link : String), g link = .invalid →
        Github.get_all_repos g link = (.ok [], [link]))
  ∧ (∀ (g : Github.GTransport) (link h : String) (r1 : List JValue)
        (hs : List (String × String)) (n j : Int) (ns : List Int)
        (more : List Int) (rss : List (List JValue)),
        g link = .ok (.arr r1) hs → Github.headerLink hs = some h →
        Github.get_total_pages h = .ok n →
        Github.pyRange 2 (n + 1) = ns ++ j :: more →
        ghPagesOk g link ns rss → g (Github.pageUrl link j) = .invalid →
        Github.get_all_repos g link =
          (.ok (r1 ++ rss.flatten),
            (link :: ns.map (Github.pageUrl link)) ++ [Github.pageUrl link j])) := by
  refine ⟨?_, ?_, ?_, ?_⟩
  · intro t ps u uf fuel hch hlen
    have h := getAllLoop_failchain_recs t ps u uf fuel [] hch hlen
    simpa [Bitbucket.get_all_results] using h
  · intro t ps u uf fuel hch hlen
    have h := getAllLoop_failchain_cnt t ps u uf fuel 0 hch hlen
    simpa [Bitbucket.get_all_results] using h
  · intro g link hg
    simp [Github.get_all_repos, hg]
  · intro g link h r1 hs n j ns more rss hg hh hn hrange hpages hj
    have hloop := ghPagesLoop_fail g link j hj ns rss more r1 [link] hpages
    simp only [Github.get_all_repos, hg, pyIter, hh, hn, hrange]
    simp [hloop]

/-- Two-call cursor transport: one good page pointing at a second URL that is
invalid. -/
def bbFailTransport : Bitbucket.Transport := fun u =>
  if u = "u0" then .ok (.obj [("values", .arr [.num 1]), ("next", .str "u1")])
  else .invalid

/-- Header link used in the C6 witness: last page 3. -/
def c6Header : String := "<x?page=3>; rel=\"last\""

/-- Header-style transport: first page with a `link` header announcing 3
pages, page 2 good, page 3 invalid. -/
def ghFailTransport : Github.GTransport := fun u =>
  if u = "L" then .ok (.arr [.num 1]) [("link", c6Header)]
  else if u = "L&page=2" then .ok (.arr [.num 2]) []
  else .invalid

/-- Witness for C6 at concrete transports: all four cases. -/
theorem claim_C6_witness :
    Bitbucket.get_all_results bbFailTransport 2 "u0" true =
      (.ok (.recs [.num 1]), ["u0", "u1"])
  ∧ Bitbucket.get_all_results bbFailTransport 2 "u0" false =
      (.ok (.cnt 1), ["u0", "u1"])
  ∧ Github.get_all_repos (fun _ => .invalid) "L" = (.ok [], ["L"])
  ∧ Github.get_all_repos ghFailTransport "L" =
      (.ok [.num 1, .num 2], ["L", "L&page=2", "L&page=3"]) := by
  have hch : failChainFrom bbFailTransport "u0"
      [{ url := "u0", fields := [("values", .arr [.num 1]), ("next", .str "u1")],
         recs := [.num 1] }] "u1" :=
    ⟨rfl, ⟨by decide, rfl⟩, rfl, by decide, rfl, by decide⟩
  refine ⟨?_, ?_, ?_, ?_⟩
  · have h := claim_C6_invalid_halts_pagination.1 bbFailTransport _ "u0" "u1" 2
      hch (by decide)
    simpa using h
  · have h := claim_C6_invalid_halts_pagination.2.1 bbFailTransport _ "u0" "u1" 2
      hch (by decide)
    simpa using h
  · exact claim_C6_invalid_halts_pagination.2.2.1 (fun _ => .invalid) "L" rfl
  · have h := claim_C6_invalid_halts_pagination.2.2.2 ghFailTransport "L"
      c6Header [.num 1] [("link", c6Header)] 3 3 [2] [] [[.num 2]]
      (by decide) rfl (by decide) (by decide) ⟨⟨[], by decide⟩, trivial⟩
      (by decide)
    simpa using h

namespace Github

/-- `pat` occurs as a contiguous substring. -/
def Occurs (pat s : List Char) : Prop := ∃ u v, s = u ++ pat ++ v

theorem occurs_cons (pat : List Char) (c : Char) (cs : List Char)
    (h : Occurs pat cs) : Occurs pat (c :: cs) := by
  obtain ⟨u, v, rfl⟩ := h
  exact ⟨c :: u, v, rfl⟩

theorem occurs_mem (pat s : List Char) (h : Occurs pat s) :
    ∀ c ∈ pat, c ∈ s := by
  obtain ⟨u, v, rfl⟩ := h
  intro c hc
  simp [hc]

theorem splitFirstPat_of_not_occurs (pat s : List Char) (hne : pat ≠ [])
    (h : ¬ Occurs pat s) : splitFirstPat pat s = none := by
  induction s with
  | nil =>
      simp only [splitFirstPat]
      rw [if_neg]
      simpa using hne
  | cons c cs ih =>
      simp only [splitFirstPat]
      rw [if_neg, ih fun hocc => h (occurs_cons pat c cs hocc)]
      · rfl
      · intro hp
        obtain ⟨t, ht⟩ := (List.isPrefixOf_iff_prefix.mp hp)
        exact h ⟨[], t, ht.symm⟩

theorem splitLastPat_of_not_occurs (pat s : List Char) (hne : pat ≠ [])
    (h : ¬ Occurs pat s) : splitLastPat pat s = none := by
  induction s with
  | nil => rfl
  | cons c cs ih =>
      simp only [splitLastPat]
      rw [ih fun hocc => h (occurs_cons pat c cs hocc)]
      rw [if_neg]
      intro hp
      obtain ⟨t, ht⟩ := (List.isPrefixOf_iff_prefix.mp hp)
      exact h ⟨[], t, ht.symm⟩

theorem splitFirstPat_here (pat s : List Char) (hne : pat ≠ [])
    (hp : pat.isPrefixOf s) :
    splitFirstPat pat s = some ([], s.drop pat.length) := by
  cases s with
  | nil =>
      obtain ⟨t, ht⟩ := List.isPrefixOf_iff_prefix.mp hp
      cases pat with
      | nil => exact absurd rfl hne
      | cons p pr => simp at ht
  | cons c cs =>
      simp only [splitFirstPat]
      rw [if_pos hp]

theorem splitFirstPat_cons_of_not_prefix (pat : List Char) (c : Char)
    (cs : List Char) (hp : ¬ pat.isPrefixOf (c :: cs)) :
    splitFirstPat pat (c :: cs) =
      (splitFirstPat pat cs).map fun p => (c :: p.1, p.2) := by
  simp only [splitFirstPat]
  rw [if_neg hp]

theorem splitLastPat_cons (pat : List Char) (c : Char) (cs : List Char)
    (a b : List Char) (h : splitLastPat pat cs = some (a, b)) :
    splitLastPat pat (c :: cs) = some (c :: a, b) := by
  simp only [splitLastPat, h]

/-- `pat` has no nontrivial border (no proper suffix that is also a prefix):
then occurrences of `pat` cannot overlap, which pins down how the regex
scanner advances. -/
def noBorderB (pat : List Char) : Bool :=
  (List.range pat.length).all fun k =>
    decide (k = 0) || decide (pat.drop k ≠ pat.take (pat.length - k))

theorem noBorder_elim (pat : List Char) (hnb : noBorderB pat = true)
    (k : Nat) (h0 : 0 < k) (hk : k < pat.length) :
    pat.drop k ≠ pat.take (pat.length - k) := by
  have h := (List.all_eq_true.mp hnb) k (List.mem_range.mpr hk)
  rcases Bool.or_eq_true_iff.mp h with h | h
  · exact absurd (of_decide_eq_true h) (Nat.pos_iff_ne_zero.mp h0)
  · exact of_decide_eq_true h

theorem splitFirst_structure (pat : List Char) (hne : pat ≠ [])
    (hnb : noBorderB pat = true) :
    ∀ (pre suffix : List Char), ∃ x y,
      splitFirstPat pat (pre ++ pat ++ suffix) = some (x, y) ∧
      x ++ pat ++ y = pre ++ pat ++ suffix ∧
      (y = suffix ∨ ∃ m, m <:+ pre ∧ y = m ++ pat ++ suffix)
  | [], suffix => by
      refine ⟨[], suffix, ?_, by simp, Or.inl rfl⟩
      have hp : pat.isPrefixOf ([] ++ pat ++ suffix) := by
        simpa using List.isPrefixOf_iff_prefix.mpr (List.prefix_append pat suffix)
      rw [splitFirstPat_here pat _ hne hp]
      simp [List.drop_left]
  | c :: pre', suffix => by
      by_cases hp : pat.isPrefixOf (c :: pre' ++ pat ++ suffix)
      · obtain ⟨t, ht⟩ := List.isPrefixOf_iff_prefix.mp hp
        refine ⟨[], (c :: pre' ++ pat ++ suffix).drop pat.length,
          splitFirstPat_here pat _ hne hp, ?_, ?_⟩
        · rw [← ht, List.nil_append, List.drop_left]
        · by_cases hle : pat.length ≤ (c :: pre').length
          · right
            refine ⟨(c :: pre').drop pat.length, List.drop_suffix _ _, ?_⟩
            have hassoc : c :: pre' ++ pat ++ suffix =
                (c :: pre') ++ (pat ++ suffix) := by
              simp
            rw [hassoc, List.drop_append_eq_append_drop,
              Nat.sub_eq_zero_of_le hle, List.drop_zero, ← List.append_assoc]
          · exfalso
            push_neg at hle
            have hs' : (c :: pre') ++ (pat ++ suffix) = pat ++ t := by
              simpa using ht.symm
            have h1 : ((c :: pre') ++ (pat ++ suffix)).take pat.length = pat := by
              rw [hs', List.take_left]
            have htake : (c :: pre') ++
                pat.take (pat.length - (c :: pre').length) = pat := by
              conv_rhs => rw [← h1]
              rw [List.take_append_eq_append_take,
                List.take_of_length_le (le_of_lt hle),
                List.take_append_of_le_length (by omega)]
            have hdrop : pat.drop (c :: pre').length =
                pat.take (pat.length - (c :: pre').length) := by
              conv_lhs => rw [← htake]
              rw [List.drop_left]
            exact noBorder_elim pat hnb (c :: pre').length (by simp)
              (by omega) hdrop
      · obtain ⟨x', y', hsp, heq, hdisj⟩ :=
          splitFirst_structure pat hne hnb pre' suffix
        have hstep := splitFirstPat_cons_of_not_prefix pat c
          (pre' ++ pat ++ suffix) (by simpa using hp)
        refine ⟨c :: x', y', ?_, ?_, ?_⟩
        · simp only [List.cons_append]
          simp only [List.cons_append] at hstep
          rw [hstep, hsp]
          rfl
        · simpa using heq
        · rcases hdisj with h | ⟨m, hm, hy⟩
          · exact Or.inl h
          · exact Or.inr ⟨m, hm.trans (List.suffix_cons c pre'), hy⟩

theorem splitLast_structure (pat : List Char) (hne : pat ≠ [])
    (hnocc : ¬ Occurs pat (pat.drop 1 ++ t)) :
    ∀ a : List Char, splitLastPat pat (a ++ pat ++ t) = some (a, t)
  | [] => by
      cases pat with
      | nil => exact absurd rfl hne
      | cons p0 pr =>
          have hrec : splitLastPat (p0 :: pr) (pr ++ t) = none :=
            splitLastPat_of_not_occurs _ _ hne (by simpa using hnocc)
          have hp : (p0 :: pr).isPrefixOf (p0 :: (pr ++ t)) := by
            exact List.isPrefixOf_iff_prefix.mpr
              (by simpa using List.prefix_append (p0 :: pr) t)
          simp only [List.nil_append, List.cons_append, splitLastPat,
            List.append_eq, hrec]
          rw [if_pos hp]
          simp only [Option.some_inj, Prod.mk.injEq]
          constructor
          · trivial
          · have h2 : p0 :: (pr ++ t) = (p0 :: pr) ++ t := by simp
            rw [h2, List.drop_left]
  | c :: a' => by
      have ih := splitLast_structure pat hne hnocc a'
      have := splitLastPat_cons pat c (a' ++ pat ++ t) a' t ih
      simpa using this

theorem takeUntilNL_of_clean (s : List Char) (h : ∀ c ∈ s, c ≠ '\n') :
    takeUntilNL s = s ∧ dropFromNL s = [] := by
  constructor
  · unfold takeUntilNL
    induction s with
    | nil => rfl
    | cons c cs ih =>
        have hc : c ≠ '\n' := h c (List.mem_cons_self _ _)
        rw [List.takeWhile_cons, if_pos (by simp [hc]),
          ih fun x hx => h x (List.mem_cons_of_mem _ hx)]
  · unfold dropFromNL
    induction s with
    | nil => rfl
    | cons c cs ih =>
        have hc : c ≠ '\n' := h c (List.mem_cons_self _ _)
        rw [List.dropWhile_cons, if_pos (by simp [hc])]
        exact ih fun x hx => h x (List.mem_cons_of_mem _ hx)

theorem reFindallAux_of_none (s : List Char)
    (h : splitFirstPat pagePat s = none) :
    ∀ fuel, reFindallAux fuel s = []
  | 0 => rfl
  | fuel + 1 => by simp [reFindallAux, h]

/-- The tail of the link header after the closing `>;` of the `rel="last"`
entry: the characters of `' rel="last"'`. -/
def relLastTail : List Char :=
  [' ', 'r', 'e', 'l', '=', '"', 'l', 'a', 's', 't', '"']

theorem digit_ne_nl (c : Char) (h : isDecDigit c = true) : c ≠ '\n' := by
  intro hc
  subst hc
  simp [isDecDigit] at h

/-- `re.findall('page=(.*)>;', ·)` on a well-formed `rel="last"` link header
returns exactly one group, which is either the digit string `d` itself (when
the final `page=` of the header is also its first) or ends with `page=`
followed by `d`. -/
theorem reFindall_header (pre d : List Char)
    (hpre : ∀ c ∈ pre, c ≠ '\n')
    (hd : ∀ c ∈ d, isDecDigit c = true) :
    ∃ A, reFindall (pre ++ pagePat ++ (d ++ closerPat ++ relLastTail)) = [A] ∧
      (A = d ∨ ∃ m, m <:+ pre ∧ A = m ++ pagePat ++ d) := by
  obtain ⟨x, y, hsp, heq, hdisj⟩ :=
    splitFirst_structure pagePat (by decide) (by decide) pre
      (d ++ closerPat ++ relLastTail)
  have hnocc_cl : ¬ Occurs closerPat (closerPat.drop 1 ++ relLastTail) := by
    intro hocc
    have hm := occurs_mem _ _ hocc '>' (by decide)
    revert hm
    decide
  have hnocc_pp : splitFirstPat pagePat relLastTail = none := by
    refine splitFirstPat_of_not_occurs _ _ (by decide) ?_
    intro hocc
    have hm := occurs_mem _ _ hocc 'p' (by decide)
    revert hm
    decide
  have main : ∀ A : List Char, y = A ++ closerPat ++ relLastTail →
      (∀ c ∈ A, c ≠ '\n') →
      reFindall (pre ++ pagePat ++ (d ++ closerPat ++ relLastTail)) = [A] := by
    intro A hyA hAclean
    have hyclean : ∀ c ∈ y, c ≠ '\n' := by
      intro c hc
      rw [hyA] at hc
      simp only [List.append_assoc, List.mem_append] at hc
      rcases hc with hc | hc | hc
      · exact hAclean c hc
      · exact fun heq => absurd (heq ▸ hc) (by decide)
      · exact fun heq => absurd (heq ▸ hc) (by decide)
    obtain ⟨htake, hdrop⟩ := takeUntilNL_of_clean y hyclean
    have hlast : splitLastPat closerPat y = some (A, relLastTail) := by
      rw [hyA]
      exact splitLast_structure closerPat (by decide) hnocc_cl A
    unfold reFindall
    simp only [reFindallAux, hsp, htake, hlast, hdrop, List.append_nil]
    rw [reFindallAux_of_none relLastTail hnocc_pp]
  rcases hdisj with rfl | ⟨m, hm, rfl⟩
  · exact ⟨d, main d (by simp) fun c hc => digit_ne_nl c (hd c hc), Or.inl rfl⟩
  · refine ⟨m ++ pagePat ++ d, main (m ++ pagePat ++ d) (by simp) ?_,
      Or.inr ⟨m, hm, rfl⟩⟩
    intro c hc
    simp only [List.append_assoc, List.mem_append] at hc
    rcases hc with hc | hc | hc
    · exact hpre c (hm.subset hc)
    · exact fun heq => absurd (heq ▸ hc) (by decide)
    · exact digit_ne_nl c (hd c hc)


theorem pySplit_ne_nil (pat : List Char) :
    ∀ (fuel : Nat) (s : List Char), pySplit pat fuel s ≠ []
  | 0, s => by simp [pySplit]
  | fuel + 1, s => by
      unfold pySplit
      cases h : splitFirstPat pat s with
      | none => simp
      | some p => simp

theorem pySplit_of_not_occurs (pat s : List Char) (hne : pat ≠ [])
    (h : ¬ Occurs pat s) : ∀ fuel, pySplit pat fuel s = [s]
  | 0 => rfl
  | fuel + 1 => by
      unfold pySplit
      rw [splitFirstPat_of_not_occurs pat s hne h]

theorem pySplit_getLast (hnb : noBorderB pagePat = true)
    (d : List Char) (hnocc : ¬ Occurs pagePat (pagePat.drop 1 ++ d)) :
    ∀ (fuel : Nat) (x : List Char), x.length < fuel →
      (pySplit pagePat fuel (x ++ pagePat ++ d)).getLast? = some d
  | 0, x, hlen => by omega
  | fuel + 1, x, hlen => by
      have hnocc_d : ¬ Occurs pagePat d := by
        intro ⟨u, v, huv⟩
        exact hnocc ⟨pagePat.drop 1 ++ u, v, by rw [huv]; simp⟩
      obtain ⟨x', y, hsp, heq, hdisj⟩ :=
        splitFirst_structure pagePat (by decide) hnb x d
      unfold pySplit
      rcases hdisj with rfl | ⟨m, hm, rfl⟩
      · rw [hsp]
        show (x' :: pySplit pagePat fuel y).getLast? = some y
        rw [pySplit_of_not_occurs pagePat y (by decide) hnocc_d fuel]
        simp
      · have hmlen : m.length < fuel := by
          have := congrArg List.length heq
          simp only [List.length_append] at this
          have h5 : 0 < pagePat.length := by decide
          omega
        have hrec := pySplit_getLast hnb d hnocc fuel m hmlen
        rw [hsp]
        show (x' :: pySplit pagePat fuel (m ++ pagePat ++ d)).getLast? = some d
        cases hps : pySplit pagePat fuel (m ++ pagePat ++ d) with
        | nil => exact absurd hps (pySplit_ne_nil pagePat fuel _)
        | cons s0 srest =>
            rw [hps] at hrec
            rw [List.getLast?_cons_cons]
            exact hrec

theorem digit_not_pyspace (c : Char) (h : isDecDigit c = true) :
    isPySpace c = false := by
  cases hs : isPySpace c
  · rfl
  · exfalso
    simp only [isPySpace, Bool.or_eq_true, decide_eq_true_eq] at hs
    rcases hs with ((((rfl | rfl) | rfl) | rfl) | rfl) | rfl <;>
      simp [isDecDigit] at h

theorem pySign_no_sign (c : Char) (cs : List Char) (hcm : c ≠ '-')
    (hcp : c ≠ '+') : pySign (c :: cs) = (false, c :: cs) := by
  unfold pySign
  split
  · rename_i rest heq
    exact absurd (List.cons.inj heq).1 hcm
  · rename_i rest heq
    exact absurd (List.cons.inj heq).1 hcp
  · rfl

theorem pyInt_digits (ds : List Char) (hne : ds ≠ [])
    (hd : ∀ c ∈ ds, isDecDigit c = true) :
    pyInt (String.mk ds) = .ok (decVal ds) := by
  have hdrop1 : ds.dropWhile isPySpace = ds := by
    cases ds with
    | nil => rfl
    | cons c cs =>
        rw [List.dropWhile_cons,
          if_neg (by simp [digit_not_pyspace c (hd c (List.mem_cons_self _ _))])]
  have hdrop2 : ds.reverse.dropWhile isPySpace = ds.reverse := by
    cases hrev : ds.reverse with
    | nil => rfl
    | cons c cs =>
        have hc : c ∈ ds := by
          have hrc : c ∈ ds.reverse := by
            rw [hrev]
            exact List.mem_cons_self _ _
          simpa using hrc
        rw [List.dropWhile_cons,
          if_neg (by simp [digit_not_pyspace c (hd c hc)])]
  have hsign : pySign ds = (false, ds) := by
    cases ds with
    | nil => exact absurd rfl hne
    | cons c cs =>
        have hcd : isDecDigit c = true := hd c (List.mem_cons_self _ _)
        refine pySign_no_sign c cs ?_ ?_
        · intro h
          subst h
          simp [isDecDigit] at hcd
        · intro h
          subst h
          simp [isDecDigit] at hcd
  show pyInt ⟨ds⟩ = .ok (decVal ds)
  unfold pyInt
  simp only [hdrop1, hdrop2, List.reverse_reverse, hsign]
  rw [if_pos ⟨hne, List.all_eq_true.mpr hd⟩]
  simp



theorem string_data_ne_nil (d : String) (h : d ≠ "") : d.data ≠ [] := by
  intro hd
  apply h
  cases d
  simp at hd
  simp [hd]

theorem not_occurs_page_tail (d : List Char)
    (hd : ∀ c ∈ d, isDecDigit c = true) :
    ¬ Occurs pagePat (pagePat.drop 1 ++ d) := by
  intro hocc
  have hp := occurs_mem _ _ hocc 'p' (by decide)
  simp only [List.mem_append] at hp
  rcases hp with hp | hp
  · revert hp
    decide
  · have := hd 'p' hp
    simp [isDecDigit] at this

/-- `int(re.findall('page=(.*)>;', h)[-1].split('page=')[-1])` on a link
header of the shape `pre ++ 'page=' ++ d ++ '>; rel="last"'` (with `pre` free
of newlines and `d` a nonempty digit string) yields exactly the number the
`rel="last"` entry encodes. -/
theorem parseLastPage_header (pre d : String)
    (hpre : ∀ c ∈ pre.data, c ≠ '\n') (hdne : d ≠ "")
    (hd : ∀ c ∈ d.data, isDecDigit c = true) :
    parseLastPage (pre ++ "page=" ++ d ++ ">; rel=\"last\"") =
      .ok (decVal d.data) := by
  have hdata : (pre ++ "page=" ++ d ++ ">; rel=\"last\"").data =
      pre.data ++ pagePat ++ (d.data ++ closerPat ++ relLastTail) := by
    simp only [String.data_append]
    simp [pagePat, closerPat, relLastTail, List.append_assoc]
  obtain ⟨A, hfind, hAdisj⟩ := reFindall_header pre.data d.data hpre hd
  have hnoccd : ¬ Occurs pagePat d.data := by
    intro hocc
    obtain ⟨u, v, huv⟩ := hocc
    exact not_occurs_page_tail d.data hd
      ⟨pagePat.drop 1 ++ u, v, by rw [huv]; simp⟩
  have hseg : (pySplit pagePat (A.length + 1) A).getLast? = some d.data := by
    rcases hAdisj with rfl | ⟨m, hm, rfl⟩
    · rw [pySplit_of_not_occurs pagePat d.data (by decide) hnoccd]
      simp
    · exact pySplit_getLast (by decide) d.data (not_occurs_page_tail d.data hd)
        ((m ++ pagePat ++ d.data).length + 1) m
        (by simp only [List.length_append]; omega)
  unfold parseLastPage
  rw [hdata, hfind]
  show (do
      let g ← pyLastIdx [A]
      let seg ← pyLastIdx (pySplit pagePat (g.length + 1) g)
      pyInt (String.mk seg)) = Except.ok (decVal d.data)
  have hlast1 : pyLastIdx [A] = .ok A := by
    simp [pyLastIdx]
  have hlast2 : pyLastIdx (pySplit pagePat (A.length + 1) A) = .ok d.data := by
    unfold pyLastIdx
    rw [hseg]
  simp only [hlast1, hlast2, bind, Except.bind]
  exact pyInt_digits d.data (string_data_ne_nil d hdne) hd


end Github

/-- C4: the Github follower count issues exactly one follower-page request
(the ghost call trace gains exactly the followers URL).  If the response's
`link` header has the `rel="last"` shape encoding a final page number `d`,
the count added is exactly that number — with `per_page=1` the page count IS
the follower count — and no further follower request is made; with no (or
empty) headers or no truthy `link` header, the count added is the number of
records in that one response. -/
theorem claim_C4_follower_count :
    (∀ (t : Github.GTransport) (org : String) (s : Github.State)
        (body : JValue) (hdrs : List (String × String)) (pre d : String),
        t (Github.followersUrl org) = .ok body hdrs →
        hdrs ≠ [] →
        Github.headerLink hdrs =
          some (pre ++ "page=" ++ d ++ ">; rel=\"last\"") →
        (∀ c ∈ pre.data, c ≠ '\n') → d ≠ "" →
        (∀ c ∈ d.data, Github.isDecDigit c = true) →
        Github.get_followers_count t org s =
          (none, { s with followers := s.followers + Github.decVal d.data, calls := s.calls ++ [Github.followersUrl org] }))
  ∧ (∀ (t : Github.GTransport) (org : String) (s : Github.State)
        (rs : List JValue) (hdrs : List (String × String)),
        t (Github.followersUrl org) = .ok (.arr rs) hdrs →
        (hdrs = [] ∨ Github.headerLink hdrs = none) →
        Github.get_followers_count t org s =
          (none, { s with followers := s.followers + rs.length, calls := s.calls ++ [Github.followersUrl org] })) := by
  constructor
  · intro t org s body hdrs pre d ht hne hlink hpre hdne hd
    have hparse := Github.parseLastPage_header pre d hpre hdne hd
    have hE : hdrs.isEmpty = false := by
      cases hdrs with
      | nil => exact absurd rfl hne
      | cons a l => rfl
    simp [Github.get_followers_count, ht, hE, hlink, hparse,
      Github.State.addCalls]
  · intro t org s rs hdrs ht hcond
    rcases hcond with rfl | hnone
    · simp [Github.get_followers_count, ht, pyLen, Github.State.addCalls]
    · have hE : (if hdrs.isEmpty then none else Github.headerLink hdrs)
          = none := by
        cases hdrs.isEmpty
        · simpa using hnone
        · rfl
      simp only [Github.get_followers_count, ht, hE, pyLen,
        Github.State.addCalls]

/-- The concrete Scenario 3 link header: one result per page, last page 2. -/
def scenario3Pre : String :=
  "<https://api.github.com/users/org/followers?per_page=1&page=2>; rel=\"next\", <https://api.github.com/users/org/followers?per_page=1&"

def scenario3Header : String := scenario3Pre ++ "page=" ++ "2" ++ ">; rel=\"last\""

def scenario3Transport : Github.GTransport := fun u =>
  if u = Github.followersUrl "org" then
    .ok (.arr [.obj []]) [("link", scenario3Header)]
  else .invalid

def noHeaderTransport : Github.GTransport := fun u =>
  if u = Github.followersUrl "org" then .ok (.arr [.obj []]) []
  else .invalid

/-- Witness for C4: Scenario 3 resolves the follower count to 2 from the
header with one request; the fallback counts the single returned record. -/
theorem claim_C4_witness :
    Github.get_followers_count scenario3Transport "org" Github.initState =
      (none, { Github.initState with followers := 2, calls := [Github.followersUrl "org"] })
  ∧ Github.get_followers_count noHeaderTransport "org" Github.initState =
      (none, { Github.initState with followers := 1, calls := [Github.followersUrl "org"] }) := by
  constructor
  · have h := claim_C4_follower_count.1 scenario3Transport "org"
      Github.initState (.arr [.obj []]) [("link", scenario3Header)]
      scenario3Pre "2" (by decide) (by decide) (by decide) (by decide)
      (by decide) (by decide)
    simpa using h
  · have h := claim_C4_follower_count.2 noHeaderTransport "org"
      Github.initState [.obj []] [] (by decide) (Or.inl rfl)
    simpa using h

namespace HeapModel

theorem readRef_of_content (h : Heap) (r : Nat) (es : List (String × HVal))
    (k : String) (r' : Nat) (hr : h.get r = some (.hdict es))
    (hk : dictLookup es k = some (.ref r')) : h.readRef r k = some r' := by
  simp [Heap.readRef, hr, hk]

theorem phaseFollowers_frame (h h' : Heap) (b g res : Nat)
    (hs : phaseFollowers h b g res = some h') :
    h'.next = h.next ∧ (∀ a, a ≠ res → h'.get a = h.get a) ∧
    (∀ es, h.get res = some (.hdict es) →
      ∃ n : Int, h'.get res = some (.hdict (dictSet es "followers" (.int n)))) := by
  unfold phaseFollowers at hs
  cases hbf : h.readInt b "followers" with
  | none => simp [hbf] at hs
  | some bf =>
    simp only [hbf] at hs
    cases hgf : h.readInt g "followers" with
    | none => simp [hgf] at hs
    | some gf =>
      simp only [hgf] at hs
      obtain ⟨hnext, hframe⟩ := Heap.dictInsert_frame h h' res _ _ hs
      exact ⟨hnext, hframe, fun es hres =>
        ⟨bf + gf, Heap.dictInsert_get_self h h' res _ _ es hres hs⟩⟩

theorem phaseWatchers_frame (h h' : Heap) (b g res : Nat)
    (hs : phaseWatchers h b g res = some h') :
    h'.next = h.next ∧ (∀ a, a ≠ res → h'.get a = h.get a) := by
  unfold phaseWatchers at hs
  cases hbw : h.readInt b "watchers" with
  | none => simp [hbw] at hs
  | some bw =>
    simp only [hbw] at hs
    cases hgw : h.readInt g "watchers" with
    | none => simp [hgw] at hs
    | some gw =>
      simp only [hgw] at hs
      exact Heap.dictInsert_frame h h' res _ _ hs

theorem phaseLangSet_frame (h : Heap) (h' : Heap) (b g lset : Nat)
    (hs : phaseLangSet h b g = some (h', lset)) :
    lset = h.next ∧ h'.next = h.next + 1 ∧
    (∀ a, a ≠ h.next → h'.get a = h.get a) := by
  unfold phaseLangSet at hs
  cases hbl : ((h.alloc (.hset [])).1).readObj b "languages" with
  | none => simp [hbl] at hs
  | some bl =>
    simp only [hbl] at hs
    cases hup7 : ((h.alloc (.hset [])).1).setUpdate (h.alloc (.hset [])).2
        bl.elems with
    | none => simp [hup7] at hs
    | some h7 =>
      simp only [hup7] at hs
      cases hgl : h7.readObj g "languages" with
      | none => simp [hgl] at hs
      | some gl =>
        simp only [hgl] at hs
        cases hup8 : h7.setUpdate (h.alloc (.hset [])).2 gl.elems with
        | none => simp [hup8] at hs
        | some h8 =>
          simp only [hup8, Option.some_inj, Prod.mk.injEq] at hs
          obtain ⟨rfl, rfl⟩ := hs
          obtain ⟨hn7, hf7⟩ := Heap.setUpdate_frame _ h7 _ _ hup7
          obtain ⟨hn8, hf8⟩ := Heap.setUpdate_frame h7 h8 _ _ hup8
          refine ⟨rfl, ?_, ?_⟩
          · rw [hn8, hn7]
            rfl
          · intro a ha
            rw [hf8 a ha, hf7 a ha]
            exact Heap.get_alloc_ne h _ a ha

theorem phaseLangList_frame (h h' : Heap) (res lset lr : Nat)
    (hlr : h.readRef res "languages" = some lr)
    (hne1 : res ≠ lr) (hne2 : res ≠ h.next)
    (hs : phaseLangList h res lset = some h') :
    h'.next = h.next + 1 ∧
    (∀ a, a ≠ lr → a ≠ h.next → h'.get a = h.get a) := by
  unfold phaseLangList at hs
  simp only [hlr] at hs
  cases hlso : h.get lset with
  | none => simp [hlso] at hs
  | some lsobj =>
    simp only [hlso] at hs
    cases hins1 : ((h.alloc (.hlist lsobj.elems)).1).dictInsert lr "list"
        (.ref (h.alloc (.hlist lsobj.elems)).2) with
    | none => simp [hins1] at hs
    | some h10 =>
      simp only [hins1] at hs
      obtain ⟨hn1, hf1⟩ := Heap.dictInsert_frame _ h10 lr _ _ hins1
      have hres10 : h10.readRef res "languages" = some lr := by
        have e1 : h10.get res = h.get res := by
          rw [hf1 res hne1]
          exact Heap.get_alloc_ne h _ res hne2
        unfold Heap.readRef at hlr ⊢
        rw [e1]
        exact hlr
      simp only [hres10] at hs
      cases hlo : h10.readObj lr "list" with
      | none => simp [hlo] at hs
      | some llobj =>
        simp only [hlo] at hs
        obtain ⟨hn2, hf2⟩ := Heap.dictInsert_frame h10 h' lr _ _ hs
        constructor
        · rw [hn2, hn1]
          rfl
        · intro a ha1 ha2
          rw [hf2 a ha1, hf1 a ha1]
          exact Heap.get_alloc_ne h _ a ha2

theorem phaseTopics_frame (h h' : Heap) (g res tr : Nat)
    (htr : h.readRef res "topics" = some tr)
    (hne1 : res ≠ tr) (hne2 : res ≠ h.next)
    (hs : phaseTopics h g res = some h') :
    h'.next = h.next + 1 ∧
    (∀ a, a ≠ tr → a ≠ h.next → h'.get a = h.get a) := by
  unfold phaseTopics at hs
  simp only [htr] at hs
  cases hgt : h.readObj g "topics" with
  | none => simp [hgt] at hs
  | some gt =>
    simp only [hgt] at hs
    cases hins1 : ((h.alloc (.hlist gt.elems)).1).dictInsert tr "list"
        (.ref (h.alloc (.hlist gt.elems)).2) with
    | none => simp [hins1] at hs
    | some h13 =>
      simp only [hins1] at hs
      obtain ⟨hn1, hf1⟩ := Heap.dictInsert_frame _ h13 tr _ _ hins1
      have hres13 : h13.readRef res "topics" = some tr := by
        have e1 : h13.get res = h.get res := by
          rw [hf1 res hne1]
          exact Heap.get_alloc_ne h _ res hne2
        unfold Heap.readRef at htr ⊢
        rw [e1]
        exact htr
      simp only [hres13] at hs
      cases hgt2 : h13.readObj g "topics" with
      | none => simp [hgt2] at hs
      | some gt2 =>
        simp only [hgt2] at hs
        obtain ⟨hn2, hf2⟩ := Heap.dictInsert_frame h13 h' tr _ _ hs
        constructor
        · rw [hn2, hn1]
          rfl
        · intro a ha1 ha2
          rw [hf2 a ha1, hf1 a ha1]
          exact Heap.get_alloc_ne h _ a ha2

theorem phaseReposF_frame (h h' : Heap) (b g res rr : Nat)
    (hrr : h.readRef res "repos" = some rr)
    (hs : phaseReposF h b g res = some h') :
    h'.next = h.next ∧ (∀ a, a ≠ rr → h'.get a = h.get a) := by
  unfold phaseReposF at hs
  simp only [hrr] at hs
  cases h1 : h.readRef b "repos" with
  | none => simp [h1] at hs
  | some brr =>
    simp only [h1] at hs
    cases h2 : h.readRef g "repos" with
    | none => simp [h2] at hs
    | some grr =>
      simp only [h2] at hs
      cases h3 : h.readInt brr "forked" with
      | none => simp [h3] at hs
      | some bfo =>
        simp only [h3] at hs
        cases h4 : h.readInt grr "forked" with
        | none => simp [h4] at hs
        | some gfo =>
          simp only [h4] at hs
          exact Heap.dictInsert_frame h h' rr _ _ hs

theorem phaseReposU_frame (h h' : Heap) (b g res rr : Nat)
    (hrr : h.readRef res "repos" = some rr)
    (hs : phaseReposU h b g res = some h') :
    h'.next = h.next ∧ (∀ a, a ≠ rr → h'.get a = h.get a) := by
  unfold phaseReposU at hs
  simp only [hrr] at hs
  cases h1 : h.readRef b "repos" with
  | none => simp [h1] at hs
  | some brr =>
    simp only [h1] at hs
    cases h2 : h.readRef g "repos" with
    | none => simp [h2] at hs
    | some grr =>
      simp only [h2] at hs
      cases h3 : h.readInt brr "unforked" with
      | none => simp [h3] at hs
      | some bu =>
        simp only [h3] at hs
        cases h4 : h.readInt grr "unforked" with
        | none => simp [h4] at hs
        | some gu =>
          simp only [h4] at hs
          exact Heap.dictInsert_frame h h' rr _ _ hs

theorem phaseReposC_frame (h h' : Heap) (res rr : Nat)
    (hrr : h.readRef res "repos" = some rr)
    (hs : phaseReposC h res = some h') :
    h'.next = h.next ∧ (∀ a, a ≠ rr → h'.get a = h.get a) := by
  unfold phaseReposC at hs
  simp only [hrr] at hs
  cases h1 : h.readInt rr "forked" with
  | none => simp [h1] at hs
  | some f1 =>
    simp only [h1] at hs
    cases h2 : h.readInt rr "unforked" with
    | none => simp [h2] at hs
    | some u1 =>
      simp only [h2] at hs
      exact Heap.dictInsert_frame h h' rr _ _ hs

theorem phaseRepos_frame (h h' : Heap) (b g res rr : Nat)
    (hrr : h.readRef res "repos" = some rr) (hne : res ≠ rr)
    (hs : phaseRepos h b g res = some h') :
    h'.next = h.next ∧ (∀ a, a ≠ rr → h'.get a = h.get a) := by
  unfold phaseRepos at hs
  cases hF : phaseReposF h b g res with
  | none => simp [hF] at hs
  | some h15 =>
    simp only [hF] at hs
    obtain ⟨hn1, hf1⟩ := phaseReposF_frame h h15 b g res rr hrr hF
    have hrr15 : h15.readRef res "repos" = some rr := by
      unfold Heap.readRef at hrr ⊢
      rw [hf1 res hne]
      exact hrr
    cases hU : phaseReposU h15 b g res with
    | none => simp [hU] at hs
    | some h16 =>
      simp only [hU] at hs
      obtain ⟨hn2, hf2⟩ := phaseReposU_frame h15 h16 b g res rr hrr15 hU
      have hrr16 : h16.readRef res "repos" = some rr := by
        unfold Heap.readRef at hrr15 ⊢
        rw [hf2 res hne]
        exact hrr15
      obtain ⟨hn3, hf3⟩ := phaseReposC_frame h16 h' res rr hrr16 hs
      constructor
      · rw [hn3, hn2, hn1]
      · intro a ha
        rw [hf3 a ha, hf2 a ha, hf1 a ha]

theorem Heap.alloc_snd (h : Heap) (o : HObj) : (h.alloc o).2 = h.next := rfl

end HeapModel

/-- C10: `combine`, run over the heap model, never mutates its two argument
dicts or anything else allocated before the call: every reference allocated
before the call (in particular the two inputs and all their nested objects)
maps to the same object afterwards, and the returned `results` reference is
freshly allocated. -/
theorem claim_C10_combine_no_mutation (h0 : HeapModel.Heap) (b g : Nat)
    (h' : HeapModel.Heap) (res : Nat) (hb : b < h0.next) (hg : g < h0.next)
    (hsucc : HeapModel.combineH h0 b g = some (h', res)) :
    (∀ a, a < h0.next → h'.get a = h0.get a) ∧ h0.next ≤ res ∧
    h'.get b = h0.get b ∧ h'.get g = h0.get g := by
  open HeapModel in
  have main : (∀ a, a < h0.next → h'.get a = h0.get a) ∧ h0.next ≤ res := by
    simp only [HeapModel.combineH, HeapModel.Heap.alloc_snd,
      HeapModel.Heap.next_alloc] at hsucc
    set resD : HeapModel.HObj :=
      .hdict [("languages", .ref h0.next), ("topics", .ref (h0.next + 1)),
        ("repos", .ref (h0.next + 1 + 1))] with hresD
    set hp1 : HeapModel.Heap := (h0.alloc (.hdict [])).1 with hhp1
    set hp2 : HeapModel.Heap := (hp1.alloc (.hdict [])).1 with hhp2
    set hp3 : HeapModel.Heap := (hp2.alloc (.hdict [])).1 with hhp3
    set hp4 : HeapModel.Heap := (hp3.alloc resD).1 with hhp4
    have hn1 : hp1.next = h0.next + 1 := rfl
    have hn2 : hp2.next = h0.next + 1 + 1 := by
      rw [hhp2, HeapModel.Heap.next_alloc, hn1]
    have hn3 : hp3.next = h0.next + 1 + 1 + 1 := by
      rw [hhp3, HeapModel.Heap.next_alloc, hn2]
    have hn4 : hp4.next = h0.next + 1 + 1 + 1 + 1 := by
      rw [hhp4, HeapModel.Heap.next_alloc, hn3]
    have hget4 : ∀ a, a < h0.next → hp4.get a = h0.get a := by
      intro a ha
      rw [hhp4, HeapModel.Heap.get_alloc_ne _ _ a (by omega),
        hhp3, HeapModel.Heap.get_alloc_ne _ _ a (by omega),
        hhp2, HeapModel.Heap.get_alloc_ne _ _ a (by omega),
        hhp1, HeapModel.Heap.get_alloc_ne _ _ a (by omega)]
    have hres4 : hp4.get (h0.next + 1 + 1 + 1) = some resD := by
      rw [hhp4, ← hn3]
      exact HeapModel.Heap.get_alloc_self hp3 resD
    split at hsucc
    · simp at hsucc
    rename_i h5 hP1
    obtain ⟨hn5, hf5, hc5⟩ :=
      HeapModel.phaseFollowers_frame _ h5 b g _ hP1
    obtain ⟨n₁, hres5⟩ := hc5 _ hres4
    simp only [HeapModel.dictSet, String.reduceEq, if_neg, reduceIte] at hres5
    split at hsucc
    · simp at hsucc
    rename_i h8 lset hP2
    obtain ⟨hlset, hn8, hf8⟩ := HeapModel.phaseLangSet_frame h5 h8 b g lset hP2
    have hres8 : h8.get (h0.next + 1 + 1 + 1) =
        some (.hdict [("languages", .ref h0.next),
          ("topics", .ref (h0.next + 1)), ("repos", .ref (h0.next + 1 + 1)),
          ("followers", .int n₁)]) := by
      rw [hf8 _ (by rw [hn5, hn4]; omega)]
      exact hres5
    have hlr8 : h8.readRef (h0.next + 1 + 1 + 1) "languages" =
        some h0.next := by
      refine HeapModel.readRef_of_content h8 _ _ _ _ hres8 ?_
      simp [HeapModel.dictLookup]
    split at hsucc
    · simp at hsucc
    rename_i h11 hP3
    obtain ⟨hn11, hf11⟩ := HeapModel.phaseLangList_frame h8 h11 _ lset h0.next
      hlr8 (by omega) (by rw [hn8, hn5, hn4]; omega) hP3
    have hres11 : h11.get (h0.next + 1 + 1 + 1) =
        some (.hdict [("languages", .ref h0.next),
          ("topics", .ref (h0.next + 1)), ("repos", .ref (h0.next + 1 + 1)),
          ("followers", .int n₁)]) := by
      rw [hf11 _ (by omega) (by rw [hn8, hn5, hn4]; omega)]
      exact hres8
    have htr11 : h11.readRef (h0.next + 1 + 1 + 1) "topics" =
        some (h0.next + 1) := by
      refine HeapModel.readRef_of_content h11 _ _ _ _ hres11 ?_
      simp [HeapModel.dictLookup]
    split at hsucc
    · simp at hsucc
    rename_i h14 hP4
    obtain ⟨hn14, hf14⟩ := HeapModel.phaseTopics_frame h11 h14 g _ (h0.next + 1)
      htr11 (by omega) (by rw [hn11, hn8, hn5, hn4]; omega) hP4
    have hres14 : h14.get (h0.next + 1 + 1 + 1) =
        some (.hdict [("languages", .ref h0.next),
          ("topics", .ref (h0.next + 1)), ("repos", .ref (h0.next + 1 + 1)),
          ("followers", .int n₁)]) := by
      rw [hf14 _ (by omega) (by rw [hn11, hn8, hn5, hn4]; omega)]
      exact hres11
    have hrr14 : h14.readRef (h0.next + 1 + 1 + 1) "repos" =
        some (h0.next + 1 + 1) := by
      refine HeapModel.readRef_of_content h14 _ _ _ _ hres14 ?_
      simp [HeapModel.dictLookup]
    split at hsucc
    · simp at hsucc
    rename_i h17 hP5
    obtain ⟨hn17, hf17⟩ := HeapModel.phaseRepos_frame h14 h17 b g _
      (h0.next + 1 + 1) hrr14 (by omega) hP5
    split at hsucc
    · simp at hsucc
    rename_i h18 hP6
    obtain ⟨hn18, hf18⟩ := HeapModel.phaseWatchers_frame h17 h18 b g _ hP6
    simp only [Option.some_inj, Prod.mk.injEq] at hsucc
    obtain ⟨rfl, rfl⟩ := hsucc
    constructor
    · intro a ha
      rw [hf18 a (by omega), hf17 a (by omega),
        hf14 a (by omega) (by rw [hn11, hn8, hn5, hn4]; omega),
        hf11 a (by omega) (by rw [hn8, hn5, hn4]; omega),
        hf8 a (by rw [hn5, hn4]; omega), hf5 a (by omega)]
      exact hget4 a ha
    · omega
  exact ⟨main.1, main.2, main.1 b hb, main.1 g hg⟩

/-- A concrete heap holding two well-formed result dicts: the Bitbucket one
at reference 0 (set of languages at 1, repos dict at 2) and the Github one at
reference 3 (languages at 4, repos at 5, topics list at 6). -/
def c10Heap : HeapModel.Heap :=
  { next := 7,
    mem := [
      (0, .hdict [("followers", .int 1), ("languages", .ref 1),
        ("repos", .ref 2), ("watchers", .int 1)]),
      (1, .hset [.str "python"]),
      (2, .hdict [("forked", .int 1), ("unforked", .int 1)]),
      (3, .hdict [("followers", .int 1), ("languages", .ref 4),
        ("repos", .ref 5), ("topics", .ref 6), ("watchers", .int 1)]),
      (4, .hset [.str "javascript"]),
      (5, .hdict [("forked", .int 1), ("unforked", .int 1)]),
      (6, .hlist [.str "flask"])] }

/-- Witness for C10 on the concrete heap: `combine` succeeds, both input
dicts are untouched and the result reference is fresh. -/
theorem claim_C10_witness :
    ((HeapModel.combineH c10Heap 0 3).map fun p =>
      (decide (p.1.get 0 = c10Heap.get 0), decide (p.1.get 3 = c10Heap.get 3),
        decide (c10Heap.next ≤ p.2))) = some (true, true, true) := by
  cases hc : HeapModel.combineH c10Heap 0 3 with
  | none => exact absurd hc (by decide)
  | some p =>
      obtain ⟨hh, r⟩ := p
      obtain ⟨hframe, hres, hgb, hgg⟩ :=
        claim_C10_combine_no_mutation c10Heap 0 3 hh r (by decide) (by decide)
          hc
      simp [hgb, hgg, hres]
